import Mathlib

/-!
A shallow embedding of `src/index.ts` of the `signal-controller` repository.

Signal names are modelled as strings, listener function objects by numeric
identities (`LId`), and the behaviour of a listener body by an ambient
function `Beh` that maps a listener identity and the argument tuple it is
invoked with to either a normal return (`Except.ok`) or a thrown value
(`Except.error`).  Listener bodies are modelled as pure: they do not
re-enter the emitter.

JavaScript `Map` objects are modelled as insertion-ordered association
lists (`jmGet`/`jmSet`/`jmDel`), and `Set` objects as duplicate-free,
insertion-ordered lists (`bmem`/`berase`).  The fire-once mark, which the
source stores as a symbol-keyed property on the listener function object
itself (`ONCE_SYMBOL`), is modelled as the collection `onceFlag` of marked
listener identities, shared across all signals exactly as a property on a
function object is.

Invocations of listeners and diagnostic output are recorded in event
traces (`Ev`, `CEv`) so that theorems can speak about what was called,
with which arguments, and in which order.
-/

abbrev SigName := String
abbrev LId := Nat
abbrev Args := List Nat
abbrev Err := Nat

/-- Behaviour of listener function bodies: `Except.error e` models the body
throwing `e`; `Except.ok ()` models a normal return. -/
abbrev Beh := LId → Args → Except Err Unit

/-- Boolean membership in a list (JS `Set.has` on identities). -/
def bmem {α : Type} [DecidableEq α] (a : α) : List α → Bool
  | [] => false
  | x :: rest => if x = a then true else bmem a rest

/-- Remove the first occurrence (JS `Set.delete`; on duplicate-free lists
this is removal by identity). -/
def berase {α : Type} [DecidableEq α] : List α → α → List α
  | [], _ => []
  | x :: rest, a => if x = a then rest else x :: berase rest a

/-- Duplicate-freeness of a list, as a Boolean. -/
def bnodup {α : Type} [DecidableEq α] : List α → Bool
  | [] => true
  | x :: rest => if bmem x rest then false else bnodup rest

/-- Number of occurrences of an element in a list. -/
def bcount {α : Type} [DecidableEq α] (a : α) : List α → Nat
  | [] => 0
  | x :: rest => (if x = a then 1 else 0) + bcount a rest

/-- JS `Map.get`. -/
def jmGet {α : Type} : List (SigName × α) → SigName → Option α
  | [], _ => none
  | (k, v) :: rest, k' => if k = k' then some v else jmGet rest k'

/-- JS `Map.set`: replace the entry in place, or append a new one. -/
def jmSet {α : Type} : List (SigName × α) → SigName → α → List (SigName × α)
  | [], k', v' => [(k', v')]
  | (k, v) :: rest, k', v' =>
      if k = k' then (k', v') :: rest else (k, v) :: jmSet rest k' v'

/-- JS `Map.delete`. -/
def jmDel {α : Type} : List (SigName × α) → SigName → List (SigName × α)
  | [], _ => []
  | (k, v) :: rest, k' => if k = k' then rest else (k, v) :: jmDel rest k'

/-- Keys of the map, in insertion order. -/
def jkeys {α : Type} (m : List (SigName × α)) : List SigName := m.map Prod.fst

/-- Observable emitter-level events: removal of a fire-once listener from
the registry by dispatch, invocation of a listener body with an argument
tuple, and a value thrown by a listener body. -/
inductive Ev where
  | removed (l : LId) (sig : SigName)
  | invoked (l : LId) (args : Args)
  | threw (l : LId) (e : Err)
deriving DecidableEq

/-- State of a `SignalEmitter`: the `#listeners` registry, the
`ONCE_SYMBOL` marks on listener function objects, and `#lastArgs` (a map
exactly when the emitter was constructed with `immediate: true`). -/
structure EmitterState where
  listeners : List (SigName × List LId)
  onceFlag : List LId
  lastArgs : Option (List (SigName × Args))
deriving DecidableEq

/-- `new SignalEmitter({ immediate })`. -/
def SignalEmitter.mk0 (immediate : Bool) : EmitterState :=
  { listeners := [], onceFlag := [],
    lastArgs := if immediate then some [] else none }

/-- The listener set registered for a signal (empty when no entry). -/
def listOf (s : EmitterState) (sig : SigName) : List LId :=
  (jmGet s.listeners sig).getD []

/-- First statement of the `off` method: `delete listener[ONCE_SYMBOL]`
(the property is configurable, so the delete succeeds), whether or not the
listener is registered anywhere. -/
def SignalEmitter.offDeleteFlag (l : LId) (s : EmitterState) : EmitterState :=
  { s with onceFlag := berase s.onceFlag l }

/-- Rest of the `off` method: remove the listener from the signal's set,
deleting the whole entry when the set becomes empty; nothing happens when
no set is registered. -/
def SignalEmitter.offRemove (sig : SigName) (l : LId) (s : EmitterState) : EmitterState :=
  match jmGet s.listeners sig with
  | none => s
  | some ls =>
      let ls := berase ls l
      if ls = [] then { s with listeners := jmDel s.listeners sig }
      else { s with listeners := jmSet s.listeners sig ls }

/-- The `off` method: `delete listener[ONCE_SYMBOL]`, then remove the
listener from the signal's set, deleting the whole entry when the set
becomes empty.  A total function: unsubscribing a listener that was never
registered raises nothing. -/
def SignalEmitter.off (sig : SigName) (l : LId) (s : EmitterState) : EmitterState :=
  SignalEmitter.offRemove sig l (SignalEmitter.offDeleteFlag l s)

/-- First statement of dispatch: `this.#lastArgs?.set(signalName, args)`. -/
def SignalEmitter.recordLast (sig : SigName) (args : Args) (s : EmitterState) : EmitterState :=
  match s.lastArgs with
  | none => s
  | some m => { s with lastArgs := some (jmSet m sig args) }

/-- Dispatch result: the final state, the `[handled, errors]` pair the
source returns, and the trace of what dispatch did. -/
structure EmitResult where
  state : EmitterState
  handled : Bool
  errors : List Err
  events : List Ev
deriving DecidableEq

/-- Processing of one listener inside dispatch: if the listener carries the
fire-once mark it is unsubscribed first; then its body is invoked inside
`try`, a thrown value being caught and collected. -/
def SignalEmitter.emitStep (beh : Beh) (sig : SigName) (args : Args)
    (acc : EmitterState × List Err × List Ev) (l : LId) :
    EmitterState × List Err × List Ev :=
  let flagged := bmem l acc.1.onceFlag
  let s1 := if flagged then SignalEmitter.off sig l acc.1 else acc.1
  let pre : List Ev := if flagged then [Ev.removed l sig] else []
  match beh l args with
  | Except.ok _ => (s1, acc.2.1, acc.2.2 ++ (pre ++ [Ev.invoked l args]))
  | Except.error e =>
      (s1, acc.2.1 ++ [e], acc.2.2 ++ (pre ++ [Ev.invoked l args, Ev.threw l e]))

/-- The `[EMIT]` method: records the arguments as last (immediate mode),
returns `[false, []]` when no listener set is registered for the signal,
and otherwise folds `emitStep` over the set in insertion order, returning
`[true, errors]`.  Dispatch is a total function: it never raises to its
caller. -/
def SignalEmitter.emit (beh : Beh) (sig : SigName) (args : Args) (s : EmitterState) : EmitResult :=
  let s := SignalEmitter.recordLast sig args s
  match jmGet s.listeners sig with
  | none => { state := s, handled := false, errors := [], events := [] }
  | some ls =>
      let r := ls.foldl (SignalEmitter.emitStep beh sig args) (s, [], [])
      { state := r.1, handled := true, errors := r.2.1, events := r.2.2 }

/-- Listener subscription options.  The `signal` (abort) option of the
source performs no synchronous state change at subscription time and is
not modelled; none of the claims concern it. -/
structure SignalListenerOptions where
  once : Bool := false
deriving DecidableEq

/-- Result of `on`: the new state, the trace of any synchronous replay
performed by the `immediate` handling, and the value thrown out of `on`
when the replayed listener body throws (the replay is not guarded by
`try`). -/
structure SubscribeResult where
  state : EmitterState
  events : List Ev
  thrown : Option Err
deriving DecidableEq

/-- The `Add listener to the list` block of `on`: `Set.add` on an existing
set (appending only a fresh identity), or a fresh singleton set. -/
def SignalEmitter.onAdd (sig : SigName) (l : LId) (s : EmitterState) : EmitterState :=
  match jmGet s.listeners sig with
  | some ls =>
      { s with listeners := jmSet s.listeners sig (if bmem l ls then ls else ls ++ [l]) }
  | none => { s with listeners := jmSet s.listeners sig [l] }

/-- The `Handles once option` block of `on`: `Object.defineProperty` sets
the fire-once mark on the listener function object when `options.once` is
set; never cleared here. -/
def SignalEmitter.onMark (opts : SignalListenerOptions) (l : LId) (s : EmitterState) :
    EmitterState :=
  if opts.once then
    if bmem l s.onceFlag then s else { s with onceFlag := s.onceFlag ++ [l] }
  else s

/-- The `Handles immediate option` block of `on`: when a last-arguments
record exists for the signal (a recorded argument array is always truthy,
even when empty), the fresh listener is invoked synchronously with it,
with no `try` around the call. -/
def SignalEmitter.onReplay (beh : Beh) (sig : SigName) (l : LId) (s : EmitterState) :
    SubscribeResult :=
  match s.lastArgs with
  | none => { state := s, events := [], thrown := none }
  | some m =>
      match jmGet m sig with
      | none => { state := s, events := [], thrown := none }
      | some la =>
          match beh l la with
          | Except.ok _ => { state := s, events := [Ev.invoked l la], thrown := none }
          | Except.error e =>
              { state := s, events := [Ev.invoked l la, Ev.threw l e], thrown := some e }

/-- The `on` method: add the listener to the signal's set (set semantics:
re-adding the same identity changes nothing), mark the function object
fire-once when `options.once` is set, then perform the immediate-mode
replay. -/
def SignalEmitter.on (beh : Beh) (sig : SigName) (opts : SignalListenerOptions) (l : LId)
    (s : EmitterState) : SubscribeResult :=
  SignalEmitter.onReplay beh sig l (SignalEmitter.onMark opts l (SignalEmitter.onAdd sig l s))

/-- The `[CLEAR_SIGNAL]` method: unsubscribe every listener currently
registered for the signal. -/
def SignalEmitter.clearSignal (sig : SigName) (s : EmitterState) : EmitterState :=
  match jmGet s.listeners sig with
  | none => s
  | some ls => ls.foldl (fun s l => SignalEmitter.off sig l s) s

/-- `Object.keys` applied to a JS `Map` object: a `Map` keeps its entries
in internal slots, not in own enumerable properties, so the result is
always the empty list, whatever the map contains. -/
def objectKeysOfJsMap {α : Type} (_m : List (SigName × α)) : List SigName := []

/-- The `[CLEAR_ALL_SIGNALS]` method:
`Object.keys(this.#listeners).forEach(key => this[CLEAR_SIGNAL](key))` —
it iterates over the own enumerable keys of the `Map` object, of which
there are none. -/
def SignalEmitter.clearAllSignals (s : EmitterState) : EmitterState :=
  (objectKeysOfJsMap s.listeners).foldl (fun s k => SignalEmitter.clearSignal k s) s

/-- Controller-level diagnostic events: an invocation of the configured
`onError` callback, the fallback pair of `console.error` calls performed
when that callback itself throws, and the warnings printed by the
neutered post-destroy `emit` and `on`. -/
inductive CEv where
  | onErrorCalled (e : Err) (sig : SigName) (args : Args)
  | consoleFallback (orig : Err) (sig : SigName) (args : Args) (cbErr : Err)
  | warnEmitDestroyed
  | warnSubscribeDestroyed
deriving DecidableEq

/-- Construction options of `SignalController`.  `onError = none` models a
construction call that supplies no callback (`options.onError` is
`undefined`). -/
structure SignalControllerOptions where
  immediate : Bool := false
  onError : Option (Err → SigName → Args → Except Err Unit) := none

/-- Whether the constructor line `this.onError = options.onError ||
console.error` defaulted the public `onError` field to the console
logger.  The field is assigned but never read again: `emit` consults
`this.options.onError` instead. -/
def SignalController.onErrorDefaulted (opts : SignalControllerOptions) : Bool :=
  opts.onError.isNone

/-- State of a `SignalController`: the owned emitter and whether
`destroy()` has replaced `emit` and the emitter's `on` by the warning
no-ops. -/
structure CState where
  emitter : EmitterState
  destroyed : Bool
deriving DecidableEq

/-- `new SignalController(options)`. -/
def SignalController.mk0 (opts : SignalControllerOptions) : CState :=
  { emitter := SignalEmitter.mk0 opts.immediate, destroyed := false }

/-- Result of `SignalController.emit`. -/
structure CtrlEmitResult where
  cstate : CState
  handled : Bool
  events : List Ev
  cevents : List CEv

/-- `SignalController.emit`: after `destroy()` the replaced method only
warns and returns `false`; otherwise it delegates to dispatch and then,
for each collected failure, runs
`this.options.onError?.(error, signalName, args)` — a call that silently
does nothing when the construction options carried no callback — catching
a failure of the callback itself with the `console.error` fallback pair. -/
def SignalController.emit (beh : Beh) (opts : SignalControllerOptions) (sig : SigName)
    (args : Args) (c : CState) : CtrlEmitResult :=
  if c.destroyed then
    { cstate := c, handled := false, events := [], cevents := [CEv.warnEmitDestroyed] }
  else
    let r := SignalEmitter.emit beh sig args c.emitter
    let cevs := r.errors.foldl
      (fun acc e =>
        match opts.onError with
        | none => acc
        | some f =>
            match f e sig args with
            | Except.ok _ => acc ++ [CEv.onErrorCalled e sig args]
            | Except.error e2 =>
                acc ++ [CEv.onErrorCalled e sig args, CEv.consoleFallback e sig args e2])
      []
    { cstate := { c with emitter := r.state }, handled := r.handled,
      events := r.events, cevents := cevs }

/-- `SignalController.off`: removes all listeners for one signal. -/
def SignalController.off (sig : SigName) (c : CState) : CState :=
  { c with emitter := SignalEmitter.clearSignal sig c.emitter }

/-- `SignalController.clear`: applies `[CLEAR_ALL_SIGNALS]`. -/
def SignalController.clear (c : CState) : CState :=
  { c with emitter := SignalEmitter.clearAllSignals c.emitter }

/-- `SignalController.destroy`: `this.clear()`, then replacement of `emit`
and of the emitter's `on` by the warning no-ops, modelled by the
`destroyed` flag that `SignalController.emit` and
`SignalController.subscribe` consult. -/
def SignalController.destroy (c : CState) : CState :=
  { emitter := SignalEmitter.clearAllSignals c.emitter, destroyed := true }

/-- Result of subscribing through the emitter owned by a controller. -/
structure CtrlSubscribeResult where
  cstate : CState
  events : List Ev
  thrown : Option Err
  cevents : List CEv

/-- Subscription through the emitter owned by a controller: `destroy()`
replaces the emitter's `on` with a no-op that only warns and registers
nothing. -/
def SignalController.subscribe (beh : Beh) (sig : SigName) (opts : SignalListenerOptions)
    (l : LId) (c : CState) : CtrlSubscribeResult :=
  if c.destroyed then
    { cstate := c, events := [], thrown := none, cevents := [CEv.warnSubscribeDestroyed] }
  else
    let r := SignalEmitter.on beh sig opts l c.emitter
    { cstate := { c with emitter := r.state }, events := r.events,
      thrown := r.thrown, cevents := [] }

/-- Spec-described events of processing one listener during dispatch: a
fire-once listener is removed first, then the listener is invoked, a
thrown value being recorded after the invocation. -/
def specListenerEvents (beh : Beh) (sig : SigName) (args : Args) (flagged : Bool)
    (l : LId) : List Ev :=
  (if flagged then [Ev.removed l sig] else []) ++
    match beh l args with
    | Except.ok _ => [Ev.invoked l args]
    | Except.error e => [Ev.invoked l args, Ev.threw l e]

/-- Spec-described dispatch trace: the listener set is iterated in
insertion order, each listener processed once, its fire-once status read
off the marks present when dispatch started. -/
def specDispatchEvents (beh : Beh) (sig : SigName) (args : Args) (flagOf : LId → Bool) :
    List LId → List Ev
  | [] => []
  | l :: rest =>
      specListenerEvents beh sig args (flagOf l) l ++
        specDispatchEvents beh sig args flagOf rest

/-- Spec-described failures list: the values thrown by the listeners, in
iteration order; listeners that return normally contribute nothing. -/
def specDispatchFailures (beh : Beh) (args : Args) : List LId → List Err
  | [] => []
  | l :: rest =>
      (match beh l args with
       | Except.ok _ => []
       | Except.error e => [e]) ++ specDispatchFailures beh args rest

/-- Number of invocations of one listener recorded in a trace. -/
def invokedCount (L : LId) : List Ev → Nat
  | [] => 0
  | Ev.invoked l _ :: rest => (if l = L then 1 else 0) + invokedCount L rest
  | _ :: rest => invokedCount L rest

/-- Whether an event concerns a given listener. -/
def evAbout (L : LId) : Ev → Bool
  | Ev.removed l _ => decide (l = L)
  | Ev.invoked l _ => decide (l = L)
  | Ev.threw l _ => decide (l = L)

/-- Scans a trace and decides whether the first invocation-relevant event
concerning the listener is its removal from the given signal (that is,
removal happened before any invocation of the listener). -/
def removalBeforeInvocation (L : LId) (sig : SigName) : List Ev → Bool
  | [] => false
  | Ev.removed l s :: rest =>
      if l = L then decide (s = sig) else removalBeforeInvocation L sig rest
  | Ev.invoked l _ :: rest =>
      if l = L then false else removalBeforeInvocation L sig rest
  | Ev.threw _ _ :: rest => removalBeforeInvocation L sig rest

/-- A sequence of dispatches of the same signal, concatenating the traces. -/
def emitSeq (beh : Beh) (sig : SigName) : List Args → EmitterState → EmitterState × List Ev
  | [], s => (s, [])
  | args :: rest, s =>
      let r := SignalEmitter.emit beh sig args s
      let r2 := emitSeq beh sig rest r.state
      (r2.1, r.events ++ r2.2)

/-- The registry invariant: no signal name maps to an empty listener set. -/
@[reducible] def noEmpty (s : EmitterState) : Prop :=
  ∀ p ∈ s.listeners, p.2 ≠ ([] : List LId)

/-- Well-formedness maintained by the emitter: registry keys are distinct
(Map semantics), every registered listener set is duplicate-free (Set
semantics) and non-empty, and the collection of fire-once marks is
duplicate-free. -/
@[reducible] def EmitterState.WF (s : EmitterState) : Prop :=
  bnodup (jkeys s.listeners) = true ∧
  (∀ p ∈ s.listeners, bnodup p.2 = true ∧ p.2 ≠ ([] : List LId)) ∧
  bnodup s.onceFlag = true

/-- Concrete signal names used in witnesses. -/
def pingSig : SigName := "ping"

/-- A second concrete signal name, distinct from `pingSig`. -/
def pongSig : SigName := "pong"

/-- A third concrete signal name. -/
def xSig : SigName := "x"

/-- A listener behaviour in which every body returns normally. -/
def behOk : Beh := fun _ _ => Except.ok ()

/-- A listener behaviour in which listener `0` always throws `7` and every
other listener returns normally. -/
def behThrow0 : Beh := fun l _ => if l = 0 then Except.error 7 else Except.ok ()

/-- An `onError` callback that itself always throws `9`. -/
def cbThrow : Err → SigName → Args → Except Err Unit := fun _ _ _ => Except.error 9

/-- A controller, fresh from `new SignalController({})`, after listener `0`
subscribed to `"ping"` through the emitter. -/
def c1Ping : CState :=
  { emitter := (SignalEmitter.on behOk pingSig {} 0 (SignalController.mk0 {}).emitter).state,
    destroyed := false }

/-- The controller `c1Ping` after `clear()`. -/
def c1PingCleared : CState := SignalController.clear c1Ping

/-- The controller `c1Ping` after `destroy()`. -/
def c1PingDestroyed : CState := SignalController.destroy c1Ping

/-- A controller constructed without an `onError` callback, after listener
`0` (whose body throws `7`) subscribed to `"x"`. -/
def cNoOnError : CState :=
  { emitter := (SignalEmitter.on behThrow0 xSig {} 0 (SignalController.mk0 {}).emitter).state,
    destroyed := false }

/-- A well-formed emitter state used by witnesses: listeners `0` and `1`
subscribed to `"ping"`, listener `0` marked fire-once, immediate mode off. -/
def wfOnceState : EmitterState :=
  { listeners := [(pingSig, [0, 1])], onceFlag := [0], lastArgs := none }

/-- An immediate-mode emitter state used by witnesses: no listeners yet,
arguments `[5]` recorded as last-emitted for `"ping"`. -/
def immState : EmitterState :=
  { listeners := [], onceFlag := [], lastArgs := some [(pingSig, [5])] }

/-- C1: the claim states that `clear()` removes every listener of every
currently registered signal, so that a subsequent emission of any
previously-subscribed signal returns `false`.  The code violates this:
`[CLEAR_ALL_SIGNALS]` iterates `Object.keys(this.#listeners)` where
`#listeners` is a `Map`, and `Object.keys` of a `Map` object is always
empty, so `clear()` removes nothing.  With listener `0` subscribed to
`"ping"`, after `clear()` the registry entry is still present, and the
subsequent emission is handled (`true`) and still invokes the listener —
contradicting both the claim and the method's own doc comment. -/
theorem clear_removes_nothing_eval :
    c1PingCleared.emitter.listeners = [(pingSig, [0])] ∧
    (SignalController.emit behOk {} pingSig [] c1PingCleared).handled = true ∧
    (SignalController.emit behOk {} pingSig [] c1PingCleared).events = [Ev.invoked 0 []] := by
  decide

/-- C2: the claim states that after `destroy()` every `emit` returns
`false` with no listener invoked, every subscription through the emitter
adds no listener, and, because `destroy` first performs `clear()`, a later
direct dispatch finds no listeners registered.  The first two parts hold
(the replaced methods only warn), but the third fails on the code: the
`clear()` performed by `destroy` removes nothing (`Object.keys` of a `Map`
is empty), so a direct dispatch on the emitter after `destroy()` still
finds listener `0` registered, reports handled (`true`) and invokes it. -/
theorem destroy_leaves_listeners_eval :
    (SignalController.emit behOk {} pingSig [] c1PingDestroyed).handled = false ∧
    (SignalController.emit behOk {} pingSig [] c1PingDestroyed).events = [] ∧
    (SignalController.emit behOk {} pingSig [] c1PingDestroyed).cevents
        = [CEv.warnEmitDestroyed] ∧
    (SignalController.subscribe behOk pingSig {} 1 c1PingDestroyed).cstate.emitter.listeners
        = [(pingSig, [0])] ∧
    (SignalController.subscribe behOk pingSig {} 1 c1PingDestroyed).cevents
        = [CEv.warnSubscribeDestroyed] ∧
    c1PingDestroyed.emitter.listeners = [(pingSig, [0])] ∧
    (SignalEmitter.emit behOk pingSig [] c1PingDestroyed.emitter).handled = true ∧
    (SignalEmitter.emit behOk pingSig [] c1PingDestroyed.emitter).events
        = [Ev.invoked 0 []] := by
  decide

/-- C3: the claim states that for every failure returned by dispatch the
controller invokes its `onError` callback — the one supplied at
construction or, when none was supplied, the default diagnostic logger
(`console.error`).  The code violates the default case: the constructor
assigns `this.onError = options.onError || console.error`, but `emit`
reads `this.options.onError?.` instead, so when no callback was supplied
the optional call short-circuits and the failure is reported nowhere.
Below, listener `0` throws `7` during `emit("x", [3])`: dispatch collects
the failure, yet the controller produces no `onError` invocation and no
console output at all, even though the constructor defaulted the
(never-read) `onError` field.  The supplied-callback paths do hold: a
supplied callback is invoked per failure, and when it itself throws the
`console.error` fallback pair runs and nothing propagates. -/
theorem default_onError_never_called_eval :
    SignalController.onErrorDefaulted {} = true ∧
    (SignalEmitter.emit behThrow0 xSig [3] cNoOnError.emitter).errors = [7] ∧
    (SignalController.emit behThrow0 {} xSig [3] cNoOnError).handled = true ∧
    (SignalController.emit behThrow0 {} xSig [3] cNoOnError).cevents = [] ∧
    (SignalController.emit behThrow0 { onError := some cbThrow } xSig [3] cNoOnError).cevents
        = [CEv.onErrorCalled 7 xSig [3], CEv.consoleFallback 7 xSig [3] 9] := by
  decide

/-- Membership distributes over list append. -/
theorem bmem_append {α : Type} [DecidableEq α] (a : α) (xs ys : List α) :
    bmem a (xs ++ ys) = (bmem a xs || bmem a ys) := by
  induction xs with
  | nil => simp [bmem]
  | cons x rest ih => by_cases h : x = a <;> simp [bmem, h, ih]

/-- An element of a list that an element is absent from differs from it. -/
theorem ne_of_bmem_eq_false {α : Type} [DecidableEq α] {a b : α} {xs : List α}
    (h : bmem a xs = false) (hb : b ∈ xs) : b ≠ a := by
  induction xs with
  | nil => cases hb
  | cons x rest ih =>
      simp only [bmem] at h
      by_cases hq : x = a
      · simp [hq] at h
      · rcases List.mem_cons.mp hb with h1 | h1
        · exact h1 ▸ hq
        · exact ih (by simpa [hq] using h) h1

/-- Erasing one element leaves membership of a different element intact. -/
theorem bmem_berase_ne {α : Type} [DecidableEq α] {a b : α} (h : a ≠ b) (xs : List α) :
    bmem b (berase xs a) = bmem b xs := by
  induction xs with
  | nil => rfl
  | cons x rest ih =>
      by_cases hx : x = a
      · subst hx; simp [berase, bmem, h]
      · by_cases hb : x = b
        · subst hb; simp [berase, bmem, hx]
        · simp [berase, hx, bmem, hb, ih]

/-- On a duplicate-free list, erasing an element removes it entirely. -/
theorem bmem_berase_self {α : Type} [DecidableEq α] (a : α) {xs : List α}
    (h : bnodup xs = true) : bmem a (berase xs a) = false := by
  induction xs with
  | nil => rfl
  | cons x rest ih =>
      simp only [bnodup] at h
      cases hm : bmem x rest with
      | true => simp [hm] at h
      | false =>
          by_cases hx : x = a
          · subst hx; simpa [berase] using hm
          · simp [berase, hx, bmem, ih (by simpa [hm] using h)]

/-- Erasing an absent element changes nothing. -/
theorem berase_of_bmem_eq_false {α : Type} [DecidableEq α] {a : α} {xs : List α}
    (h : bmem a xs = false) : berase xs a = xs := by
  induction xs with
  | nil => rfl
  | cons x rest ih =>
      simp only [bmem] at h
      by_cases hx : x = a
      · simp [hx] at h
      · simp [berase, hx, ih (by simpa [hx] using h)]

/-- Erasing preserves duplicate-freeness. -/
theorem bnodup_berase {α : Type} [DecidableEq α] (a : α) {xs : List α}
    (h : bnodup xs = true) : bnodup (berase xs a) = true := by
  induction xs with
  | nil => rfl
  | cons x rest ih =>
      simp only [bnodup] at h
      cases hm : bmem x rest with
      | true => simp [hm] at h
      | false =>
          have hrest := ih (by simpa [hm] using h)
          by_cases hx : x = a
          · subst hx; simpa [berase] using (by simpa [hm] using h)
          · have hxm : bmem x (berase rest a) = false := by
              rw [bmem_berase_ne (fun hh => hx hh.symm) rest]; exact hm
            simp [berase, hx, bnodup, hxm, hrest]

/-- Erasing any element preserves absence of another. -/
theorem bmem_berase_of_bmem_eq_false {α : Type} [DecidableEq α] (a : α) {b : α}
    {xs : List α} (h : bmem b xs = false) : bmem b (berase xs a) = false := by
  induction xs with
  | nil => rfl
  | cons x rest ih =>
      simp only [bmem] at h
      by_cases hb : x = b
      · simp [hb] at h
      · have hr : bmem b rest = false := by simpa [hb] using h
        by_cases hx : x = a
        · simpa [berase, hx] using hr
        · simp [berase, hx, bmem, hb, ih hr]

/-- Appending a fresh element preserves duplicate-freeness. -/
theorem bnodup_append_single {α : Type} [DecidableEq α] {a : α} {xs : List α}
    (h : bnodup xs = true) (hm : bmem a xs = false) : bnodup (xs ++ [a]) = true := by
  induction xs with
  | nil => simp [bnodup, bmem]
  | cons x rest ih =>
      simp only [bnodup] at h
      simp only [bmem] at hm
      cases hq : bmem x rest with
      | true => simp [hq] at h
      | false =>
          by_cases hx : x = a
          · simp [hx] at hm
          · have h1 := ih (by simpa [hq] using h) (by simpa [hx] using hm)
            have h2 : bmem x (rest ++ [a]) = false := by
              rw [bmem_append]
              simp [hq, bmem, show ¬(a = x) from fun hh => hx hh.symm]
            simp [bnodup, h2, h1]

/-- An absent element occurs zero times. -/
theorem bcount_eq_zero_of_bmem_eq_false {α : Type} [DecidableEq α] {a : α} {xs : List α}
    (h : bmem a xs = false) : bcount a xs = 0 := by
  induction xs with
  | nil => rfl
  | cons x rest ih =>
      simp only [bmem] at h
      by_cases hx : x = a
      · simp [hx] at h
      · simp [bcount, hx, ih (by simpa [hx] using h)]

/-- On a duplicate-free list, a present element occurs exactly once. -/
theorem bcount_eq_one {α : Type} [DecidableEq α] {a : α} {xs : List α}
    (h : bnodup xs = true) (hm : bmem a xs = true) : bcount a xs = 1 := by
  induction xs with
  | nil => simp [bmem] at hm
  | cons x rest ih =>
      simp only [bnodup] at h
      simp only [bmem] at hm
      cases hq : bmem x rest with
      | true => simp [hq] at h
      | false =>
          by_cases hx : x = a
          · subst hx
            simp [bcount, bcount_eq_zero_of_bmem_eq_false hq]
          · simp [bcount, hx, ih (by simpa [hq] using h) (by simpa [hx] using hm)]

/-- A key absent from the key list has no entry. -/
theorem jmGet_eq_none_of_bmem_keys_eq_false {α : Type} {m : List (SigName × α)}
    {k : SigName} (h : bmem k (jkeys m) = false) : jmGet m k = none := by
  induction m with
  | nil => rfl
  | cons p rest ih =>
      obtain ⟨k0, v0⟩ := p
      simp only [jkeys, List.map_cons, bmem] at h
      by_cases h0 : k0 = k
      · simp [h0] at h
      · simp only [jmGet, h0, if_false]
        exact ih (by simpa [h0, jkeys] using h)

/-- Lookup after setting the same key. -/
theorem jmGet_jmSet_self {α : Type} (m : List (SigName × α)) (k : SigName) (v : α) :
    jmGet (jmSet m k v) k = some v := by
  induction m with
  | nil => simp [jmSet, jmGet]
  | cons p rest ih =>
      obtain ⟨k0, v0⟩ := p
      by_cases h : k0 = k
      · simp [jmSet, h, jmGet]
      · simp [jmSet, h, jmGet, ih]

/-- Lookup of another key after setting. -/
theorem jmGet_jmSet_ne {α : Type} {k k' : SigName} (h : k' ≠ k)
    (m : List (SigName × α)) (v : α) : jmGet (jmSet m k v) k' = jmGet m k' := by
  induction m with
  | nil => simp [jmSet, jmGet, show ¬(k = k') from fun hh => h hh.symm]
  | cons p rest ih =>
      obtain ⟨k0, v0⟩ := p
      by_cases h0 : k0 = k
      · subst h0
        simp [jmSet, jmGet, show ¬(k0 = k') from fun hh => h hh.symm]
      · by_cases h1 : k0 = k'
        · subst h1; simp [jmSet, jmGet, h0]
        · simp [jmSet, h0, jmGet, h1, ih]

/-- Lookup of another key after deleting. -/
theorem jmGet_jmDel_ne {α : Type} {k k' : SigName} (h : k' ≠ k)
    (m : List (SigName × α)) : jmGet (jmDel m k) k' = jmGet m k' := by
  induction m with
  | nil => rfl
  | cons p rest ih =>
      obtain ⟨k0, v0⟩ := p
      by_cases h0 : k0 = k
      · subst h0
        simp [jmDel, jmGet, show ¬(k0 = k') from fun hh => h hh.symm]
      · by_cases h1 : k0 = k'
        · subst h1; simp [jmDel, jmGet, h0]
        · simp [jmDel, h0, jmGet, h1, ih]

/-- Keys after deleting a key. -/
theorem jkeys_jmDel {α : Type} (m : List (SigName × α)) (k : SigName) :
    jkeys (jmDel m k) = berase (jkeys m) k := by
  induction m with
  | nil => rfl
  | cons p rest ih =>
      obtain ⟨k0, v0⟩ := p
      by_cases h0 : k0 = k
      · simp [jmDel, h0, jkeys, berase]
      · show jkeys (if k0 = k then rest else (k0, v0) :: jmDel rest k) = _
        rw [if_neg h0]
        show k0 :: jkeys (jmDel rest k) = berase (k0 :: jkeys rest) k
        rw [ih]
        show _ = if k0 = k then jkeys rest else k0 :: berase (jkeys rest) k
        rw [if_neg h0]

/-- With distinct keys, deleting a key removes its entry entirely. -/
theorem jmGet_jmDel_self {α : Type} {m : List (SigName × α)} {k : SigName}
    (h : bnodup (jkeys m) = true) : jmGet (jmDel m k) k = none := by
  induction m with
  | nil => rfl
  | cons p rest ih =>
      obtain ⟨k0, v0⟩ := p
      simp only [jkeys, List.map_cons, bnodup] at h
      cases hq : bmem k0 (List.map Prod.fst rest) with
      | true => simp [jkeys, hq] at h
      | false =>
          by_cases h0 : k0 = k
          · subst h0
            simp only [jmDel, if_pos rfl]
            exact jmGet_eq_none_of_bmem_keys_eq_false (by simpa [jkeys] using hq)
          · simp only [jmDel, h0, if_false, jmGet]
            exact ih (by simpa [jkeys, hq] using h)

/-- Keys after setting a key: unchanged when present, appended when fresh. -/
theorem jkeys_jmSet {α : Type} (m : List (SigName × α)) (k : SigName) (v : α) :
    jkeys (jmSet m k v) =
      if bmem k (jkeys m) = true then jkeys m else jkeys m ++ [k] := by
  induction m with
  | nil => simp [jmSet, jkeys, bmem]
  | cons p rest ih =>
      obtain ⟨k0, v0⟩ := p
      by_cases h0 : k0 = k
      · subst h0; simp [jmSet, jkeys, bmem]
      · show jkeys (if k0 = k then (k, v) :: rest else (k0, v0) :: jmSet rest k v) = _
        rw [if_neg h0]
        show k0 :: jkeys (jmSet rest k v) = _
        rw [ih]
        show _ = if (if k0 = k then true else bmem k (jkeys rest)) = true
            then k0 :: jkeys rest else (k0 :: jkeys rest) ++ [k]
        rw [if_neg h0]
        cases h2 : bmem k (jkeys rest) with
        | true => simp [h2]
        | false => simp [h2]

/-- Setting preserves distinctness of keys. -/
theorem bnodup_jkeys_jmSet {α : Type} {m : List (SigName × α)} (k : SigName) (v : α)
    (h : bnodup (jkeys m) = true) : bnodup (jkeys (jmSet m k v)) = true := by
  rw [jkeys_jmSet]
  cases hq : bmem k (jkeys m) with
  | true => simpa [hq] using h
  | false => simpa [hq] using bnodup_append_single h hq

/-- Deleting preserves distinctness of keys. -/
theorem bnodup_jkeys_jmDel {α : Type} {m : List (SigName × α)} (k : SigName)
    (h : bnodup (jkeys m) = true) : bnodup (jkeys (jmDel m k)) = true := by
  rw [jkeys_jmDel]; exact bnodup_berase k h

/-- Every entry after a set is the new binding or an old entry. -/
theorem mem_jmSet {α : Type} {p : SigName × α} {m : List (SigName × α)}
    {k : SigName} {v : α} (h : p ∈ jmSet m k v) : p = (k, v) ∨ p ∈ m := by
  induction m with
  | nil => simpa [jmSet] using h
  | cons q rest ih =>
      obtain ⟨k0, v0⟩ := q
      by_cases h0 : k0 = k
      · subst h0
        rw [show jmSet ((k0, v0) :: rest) k0 v = (k0, v) :: rest from by
          simp [jmSet]] at h
        rcases List.mem_cons.mp h with h | h
        · exact Or.inl h
        · exact Or.inr (List.mem_cons_of_mem _ h)
      · rw [show jmSet ((k0, v0) :: rest) k v = (k0, v0) :: jmSet rest k v from by
          simp [jmSet, h0]] at h
        rcases List.mem_cons.mp h with h | h
        · exact Or.inr (by simp [h])
        · rcases ih h with h1 | h1
          · exact Or.inl h1
          · exact Or.inr (List.mem_cons_of_mem _ h1)

/-- Every entry after a delete is an old entry. -/
theorem mem_jmDel {α : Type} {p : SigName × α} {m : List (SigName × α)}
    {k : SigName} (h : p ∈ jmDel m k) : p ∈ m := by
  induction m with
  | nil => simp [jmDel] at h
  | cons q rest ih =>
      obtain ⟨k0, v0⟩ := q
      by_cases h0 : k0 = k
      · rw [show jmDel ((k0, v0) :: rest) k = rest from by simp [jmDel, h0]] at h
        exact List.mem_cons_of_mem _ h
      · rw [show jmDel ((k0, v0) :: rest) k = (k0, v0) :: jmDel rest k from by
          simp [jmDel, h0]] at h
        rcases List.mem_cons.mp h with h | h
        · simp [h]
        · exact List.mem_cons_of_mem _ (ih h)

/-- A successful lookup is an entry of the map. -/
theorem jmGet_mem {α : Type} {m : List (SigName × α)} {k : SigName} {v : α}
    (h : jmGet m k = some v) : (k, v) ∈ m := by
  induction m with
  | nil => simp [jmGet] at h
  | cons q rest ih =>
      obtain ⟨k0, v0⟩ := q
      by_cases h0 : k0 = k
      · subst h0
        rw [show jmGet ((k0, v0) :: rest) k0 = some v0 from by simp [jmGet]] at h
        cases h
        exact List.mem_cons_self _ _
      · rw [show jmGet ((k0, v0) :: rest) k = jmGet rest k from by simp [jmGet, h0]] at h
        exact List.mem_cons_of_mem _ (ih h)

/-- Writing back the value a key already has changes nothing. -/
theorem jmSet_same {α : Type} {m : List (SigName × α)} {k : SigName} {v : α}
    (h : jmGet m k = some v) : jmSet m k v = m := by
  induction m with
  | nil => simp [jmGet] at h
  | cons q rest ih =>
      obtain ⟨k0, v0⟩ := q
      by_cases h0 : k0 = k
      · subst h0
        rw [show jmGet ((k0, v0) :: rest) k0 = some v0 from by simp [jmGet]] at h
        cases h
        simp [jmSet]
      · rw [show jmGet ((k0, v0) :: rest) k = jmGet rest k from by simp [jmGet, h0]] at h
        simp [jmSet, h0, ih h]

/-- Case equation for `offRemove`: no registered set. -/
theorem offRemove_eq_of_none {sig : SigName} {l : LId} {s : EmitterState}
    (hg : jmGet s.listeners sig = none) : SignalEmitter.offRemove sig l s = s := by
  unfold SignalEmitter.offRemove
  simp only [hg]

/-- Case equation for `offRemove`: the set empties, so the entry is deleted. -/
theorem offRemove_eq_of_empty {sig : SigName} {l : LId} {s : EmitterState} {ls : List LId}
    (hg : jmGet s.listeners sig = some ls) (he : berase ls l = []) :
    SignalEmitter.offRemove sig l s = { s with listeners := jmDel s.listeners sig } := by
  unfold SignalEmitter.offRemove
  simp only [hg, he, if_pos]

/-- Case equation for `offRemove`: the set stays non-empty and is written back. -/
theorem offRemove_eq_of_nonempty {sig : SigName} {l : LId} {s : EmitterState} {ls : List LId}
    (hg : jmGet s.listeners sig = some ls) (he : ¬(berase ls l = [])) :
    SignalEmitter.offRemove sig l s =
      { s with listeners := jmSet s.listeners sig (berase ls l) } := by
  unfold SignalEmitter.offRemove
  simp only [hg, he, if_neg, if_false]

/-- `offRemove` never touches the fire-once marks. -/
theorem offRemove_onceFlag (sig : SigName) (l : LId) (s : EmitterState) :
    (SignalEmitter.offRemove sig l s).onceFlag = s.onceFlag := by
  cases hg : jmGet s.listeners sig with
  | none => rw [offRemove_eq_of_none hg]
  | some ls =>
      by_cases he : berase ls l = []
      · rw [offRemove_eq_of_empty hg he]
      · rw [offRemove_eq_of_nonempty hg he]

/-- `offRemove` never touches the last-arguments map. -/
theorem offRemove_lastArgs (sig : SigName) (l : LId) (s : EmitterState) :
    (SignalEmitter.offRemove sig l s).lastArgs = s.lastArgs := by
  cases hg : jmGet s.listeners sig with
  | none => rw [offRemove_eq_of_none hg]
  | some ls =>
      by_cases he : berase ls l = []
      · rw [offRemove_eq_of_empty hg he]
      · rw [offRemove_eq_of_nonempty hg he]

/-- `off` erases the listener's fire-once mark and changes no other mark. -/
theorem off_onceFlag (sig : SigName) (l : LId) (s : EmitterState) :
    (SignalEmitter.off sig l s).onceFlag = berase s.onceFlag l := by
  unfold SignalEmitter.off
  rw [offRemove_onceFlag]
  rfl

/-- `off` never touches the last-arguments map. -/
theorem off_lastArgs (sig : SigName) (l : LId) (s : EmitterState) :
    (SignalEmitter.off sig l s).lastArgs = s.lastArgs := by
  unfold SignalEmitter.off
  rw [offRemove_lastArgs]
  rfl

/-- With distinct registry keys, `offRemove` leaves exactly the erased set
registered for the signal (the empty list standing for a deleted entry). -/
theorem listOf_offRemove_self {s : EmitterState} (sig : SigName) (l : LId)
    (hk : bnodup (jkeys s.listeners) = true) :
    listOf (SignalEmitter.offRemove sig l s) sig = berase (listOf s sig) l := by
  cases hg : jmGet s.listeners sig with
  | none =>
      rw [offRemove_eq_of_none hg]
      simp [listOf, hg, berase]
  | some ls =>
      by_cases he : berase ls l = []
      · rw [offRemove_eq_of_empty hg he]
        simp [listOf, jmGet_jmDel_self hk, hg, he]
      · rw [offRemove_eq_of_nonempty hg he]
        simp [listOf, jmGet_jmSet_self, hg]

/-- `offRemove` leaves other signals' sets untouched. -/
theorem listOf_offRemove_ne {s : EmitterState} {sig sig2 : SigName} (l : LId)
    (hne : sig2 ≠ sig) :
    listOf (SignalEmitter.offRemove sig l s) sig2 = listOf s sig2 := by
  cases hg : jmGet s.listeners sig with
  | none => rw [offRemove_eq_of_none hg]
  | some ls =>
      by_cases he : berase ls l = []
      · rw [offRemove_eq_of_empty hg he]
        simp [listOf, jmGet_jmDel_ne hne]
      · rw [offRemove_eq_of_nonempty hg he]
        simp [listOf, jmGet_jmSet_ne hne]

/-- With distinct registry keys, `off` leaves exactly the erased set. -/
theorem listOf_off_self {s : EmitterState} (sig : SigName) (l : LId)
    (hk : bnodup (jkeys s.listeners) = true) :
    listOf (SignalEmitter.off sig l s) sig = berase (listOf s sig) l := by
  have hk2 : bnodup (jkeys (SignalEmitter.offDeleteFlag l s).listeners) = true := hk
  exact listOf_offRemove_self sig l hk2

/-- `off` leaves other signals' sets untouched. -/
theorem listOf_off_ne {s : EmitterState} {sig sig2 : SigName} (l : LId) (hne : sig2 ≠ sig) :
    listOf (SignalEmitter.off sig l s) sig2 = listOf s sig2 := by
  unfold SignalEmitter.off
  rw [listOf_offRemove_ne l hne]
  rfl

/-- `offRemove` preserves well-formedness. -/
theorem WF_offRemove {s : EmitterState} (sig : SigName) (l : LId) (h : s.WF) :
    (SignalEmitter.offRemove sig l s).WF := by
  obtain ⟨hk, hv, hf⟩ := h
  cases hg : jmGet s.listeners sig with
  | none => rw [offRemove_eq_of_none hg]; exact ⟨hk, hv, hf⟩
  | some ls =>
      by_cases he : berase ls l = []
      · rw [offRemove_eq_of_empty hg he]
        refine ⟨bnodup_jkeys_jmDel sig hk, ?_, hf⟩
        intro p hp
        exact hv p (mem_jmDel hp)
      · rw [offRemove_eq_of_nonempty hg he]
        refine ⟨bnodup_jkeys_jmSet sig (berase ls l) hk, ?_, hf⟩
        intro p hp
        rcases mem_jmSet hp with h1 | h1
        · obtain ⟨hnd, _⟩ := hv (sig, ls) (jmGet_mem hg)
          subst h1
          exact ⟨bnodup_berase l hnd, he⟩
        · exact hv p h1

/-- `off` preserves well-formedness. -/
theorem WF_off {s : EmitterState} (sig : SigName) (l : LId) (h : s.WF) :
    (SignalEmitter.off sig l s).WF := by
  obtain ⟨hk, hv, hf⟩ := h
  exact WF_offRemove sig l ⟨hk, hv, bnodup_berase l hf⟩

/-- Case equation for `onAdd`: an existing set. -/
theorem onAdd_eq_of_some {sig : SigName} {l : LId} {s : EmitterState} {ls : List LId}
    (hg : jmGet s.listeners sig = some ls) :
    SignalEmitter.onAdd sig l s =
      { s with listeners := jmSet s.listeners sig (if bmem l ls then ls else ls ++ [l]) } := by
  unfold SignalEmitter.onAdd
  simp only [hg]

/-- Case equation for `onAdd`: a fresh singleton set. -/
theorem onAdd_eq_of_none {sig : SigName} {l : LId} {s : EmitterState}
    (hg : jmGet s.listeners sig = none) :
    SignalEmitter.onAdd sig l s = { s with listeners := jmSet s.listeners sig [l] } := by
  unfold SignalEmitter.onAdd
  simp only [hg]

/-- `onAdd` never touches the fire-once marks. -/
theorem onAdd_onceFlag (sig : SigName) (l : LId) (s : EmitterState) :
    (SignalEmitter.onAdd sig l s).onceFlag = s.onceFlag := by
  cases hg : jmGet s.listeners sig with
  | none => rw [onAdd_eq_of_none hg]
  | some ls => rw [onAdd_eq_of_some hg]

/-- `onAdd` never touches the last-arguments map. -/
theorem onAdd_lastArgs (sig : SigName) (l : LId) (s : EmitterState) :
    (SignalEmitter.onAdd sig l s).lastArgs = s.lastArgs := by
  cases hg : jmGet s.listeners sig with
  | none => rw [onAdd_eq_of_none hg]
  | some ls => rw [onAdd_eq_of_some hg]

/-- After `onAdd`, the signal's set is the old set with the listener
appended when fresh, unchanged when it was already present. -/
theorem listOf_onAdd_self (sig : SigName) (l : LId) (s : EmitterState) :
    listOf (SignalEmitter.onAdd sig l s) sig =
      (if bmem l (listOf s sig) = true then listOf s sig else listOf s sig ++ [l]) := by
  cases hg : jmGet s.listeners sig with
  | none =>
      rw [onAdd_eq_of_none hg]
      simp [listOf, jmGet_jmSet_self, hg, bmem]
  | some ls =>
      rw [onAdd_eq_of_some hg]
      cases hb : bmem l ls with
      | true => simp [listOf, jmGet_jmSet_self, hg, hb]
      | false => simp [listOf, jmGet_jmSet_self, hg, hb]

/-- `onAdd` leaves other signals' sets untouched. -/
theorem listOf_onAdd_ne {sig sig2 : SigName} (l : LId) (s : EmitterState)
    (hne : sig2 ≠ sig) :
    listOf (SignalEmitter.onAdd sig l s) sig2 = listOf s sig2 := by
  cases hg : jmGet s.listeners sig with
  | none =>
      rw [onAdd_eq_of_none hg]
      simp [listOf, jmGet_jmSet_ne hne]
  | some ls =>
      rw [onAdd_eq_of_some hg]
      simp [listOf, jmGet_jmSet_ne hne]

/-- `onAdd` preserves well-formedness. -/
theorem WF_onAdd (sig : SigName) (l : LId) {s : EmitterState} (h : s.WF) :
    (SignalEmitter.onAdd sig l s).WF := by
  obtain ⟨hk, hv, hf⟩ := h
  cases hg : jmGet s.listeners sig with
  | none =>
      rw [onAdd_eq_of_none hg]
      refine ⟨bnodup_jkeys_jmSet sig [l] hk, ?_, hf⟩
      intro p hp
      rcases mem_jmSet hp with h1 | h1
      · subst h1; exact ⟨rfl, by simp⟩
      · exact hv p h1
  | some ls =>
      rw [onAdd_eq_of_some hg]
      refine ⟨bnodup_jkeys_jmSet sig _ hk, ?_, hf⟩
      intro p hp
      rcases mem_jmSet hp with h1 | h1
      · subst h1
        obtain ⟨hnd, hnem⟩ := hv (sig, ls) (jmGet_mem hg)
        cases hb : bmem l ls with
        | true => simpa [hb] using ⟨hnd, hnem⟩
        | false =>
            refine ⟨?_, by simp [hb]⟩
            simpa [hb] using bnodup_append_single hnd hb
      · exact hv p h1

/-- Case equation for `onMark`: no `once` option. -/
theorem onMark_eq_of_not_once {opts : SignalListenerOptions} {l : LId} {s : EmitterState}
    (ho : opts.once = false) : SignalEmitter.onMark opts l s = s := by
  unfold SignalEmitter.onMark
  simp [ho]

/-- Case equation for `onMark`: `once` requested, mark already present. -/
theorem onMark_eq_of_once_mem {opts : SignalListenerOptions} {l : LId} {s : EmitterState}
    (ho : opts.once = true) (hm : bmem l s.onceFlag = true) :
    SignalEmitter.onMark opts l s = s := by
  unfold SignalEmitter.onMark
  simp [ho, hm]

/-- Case equation for `onMark`: `once` requested, mark fresh. -/
theorem onMark_eq_of_once_new {opts : SignalListenerOptions} {l : LId} {s : EmitterState}
    (ho : opts.once = true) (hm : bmem l s.onceFlag = false) :
    SignalEmitter.onMark opts l s = { s with onceFlag := s.onceFlag ++ [l] } := by
  unfold SignalEmitter.onMark
  simp [ho, hm]

/-- `onMark` never touches the registry. -/
theorem onMark_listeners (opts : SignalListenerOptions) (l : LId) (s : EmitterState) :
    (SignalEmitter.onMark opts l s).listeners = s.listeners := by
  cases ho : opts.once with
  | false => rw [onMark_eq_of_not_once ho]
  | true =>
      cases hm : bmem l s.onceFlag with
      | true => rw [onMark_eq_of_once_mem ho hm]
      | false => rw [onMark_eq_of_once_new ho hm]

/-- `onMark` never touches the last-arguments map. -/
theorem onMark_lastArgs (opts : SignalListenerOptions) (l : LId) (s : EmitterState) :
    (SignalEmitter.onMark opts l s).lastArgs = s.lastArgs := by
  cases ho : opts.once with
  | false => rw [onMark_eq_of_not_once ho]
  | true =>
      cases hm : bmem l s.onceFlag with
      | true => rw [onMark_eq_of_once_mem ho hm]
      | false => rw [onMark_eq_of_once_new ho hm]

/-- A `once` subscription leaves the listener marked fire-once. -/
theorem bmem_onceFlag_onMark_self {opts : SignalListenerOptions} (l : LId) (s : EmitterState)
    (ho : opts.once = true) :
    bmem l (SignalEmitter.onMark opts l s).onceFlag = true := by
  cases hm : bmem l s.onceFlag with
  | true => rw [onMark_eq_of_once_mem ho hm]; exact hm
  | false =>
      rw [onMark_eq_of_once_new ho hm]
      simp [bmem_append, bmem]

/-- `onMark` never clears an existing fire-once mark. -/
theorem bmem_onceFlag_onMark_mono (opts : SignalListenerOptions) (l x : LId)
    (s : EmitterState) (h : bmem x s.onceFlag = true) :
    bmem x (SignalEmitter.onMark opts l s).onceFlag = true := by
  cases ho : opts.once with
  | false => rw [onMark_eq_of_not_once ho]; exact h
  | true =>
      cases hm : bmem l s.onceFlag with
      | true => rw [onMark_eq_of_once_mem ho hm]; exact h
      | false =>
          rw [onMark_eq_of_once_new ho hm]
          simp [bmem_append, h]

/-- `onMark` preserves well-formedness. -/
theorem WF_onMark (opts : SignalListenerOptions) (l : LId) {s : EmitterState} (h : s.WF) :
    (SignalEmitter.onMark opts l s).WF := by
  obtain ⟨hk, hv, hf⟩ := h
  cases ho : opts.once with
  | false => rw [onMark_eq_of_not_once ho]; exact ⟨hk, hv, hf⟩
  | true =>
      cases hm : bmem l s.onceFlag with
      | true => rw [onMark_eq_of_once_mem ho hm]; exact ⟨hk, hv, hf⟩
      | false =>
          rw [onMark_eq_of_once_new ho hm]
          exact ⟨hk, hv, bnodup_append_single hf hm⟩

/-- Case equation for the replay stage: not in immediate mode. -/
theorem onReplay_eq_of_noMap {beh : Beh} {sig : SigName} {l : LId} {s : EmitterState}
    (hl : s.lastArgs = none) :
    SignalEmitter.onReplay beh sig l s = { state := s, events := [], thrown := none } := by
  unfold SignalEmitter.onReplay
  simp only [hl]

/-- Case equation for the replay stage: immediate mode, no recorded
arguments for this signal. -/
theorem onReplay_eq_of_noRec {beh : Beh} {sig : SigName} {l : LId} {s : EmitterState}
    {m : List (SigName × Args)} (hl : s.lastArgs = some m) (hla : jmGet m sig = none) :
    SignalEmitter.onReplay beh sig l s = { state := s, events := [], thrown := none } := by
  unfold SignalEmitter.onReplay
  simp only [hl, hla]

/-- Case equation for the replay stage: recorded arguments exist and the
replayed body returns normally. -/
theorem onReplay_eq_of_ok {beh : Beh} {sig : SigName} {l : LId} {s : EmitterState}
    {m : List (SigName × Args)} {la : Args} (hl : s.lastArgs = some m)
    (hla : jmGet m sig = some la) (hok : beh l la = Except.ok ()) :
    SignalEmitter.onReplay beh sig l s =
      { state := s, events := [Ev.invoked l la], thrown := none } := by
  unfold SignalEmitter.onReplay
  simp only [hl, hla, hok]

/-- Case equation for the replay stage: recorded arguments exist and the
replayed body throws; the value escapes `on`. -/
theorem onReplay_eq_of_error {beh : Beh} {sig : SigName} {l : LId} {s : EmitterState}
    {m : List (SigName × Args)} {la : Args} {e : Err} (hl : s.lastArgs = some m)
    (hla : jmGet m sig = some la) (herr : beh l la = Except.error e) :
    SignalEmitter.onReplay beh sig l s =
      { state := s, events := [Ev.invoked l la, Ev.threw l e], thrown := some e } := by
  unfold SignalEmitter.onReplay
  simp only [hl, hla, herr]

/-- The replay stage never changes the state. -/
theorem onReplay_state (beh : Beh) (sig : SigName) (l : LId) (s : EmitterState) :
    (SignalEmitter.onReplay beh sig l s).state = s := by
  cases hl : s.lastArgs with
  | none => rw [onReplay_eq_of_noMap hl]
  | some m =>
      cases hla : jmGet m sig with
      | none => rw [onReplay_eq_of_noRec hl hla]
      | some la =>
          cases hb : beh l la with
          | ok u => cases u; rw [onReplay_eq_of_ok hl hla hb]
          | error e => rw [onReplay_eq_of_error hl hla hb]

/-- Case equation for `recordLast`: not in immediate mode. -/
theorem recordLast_eq_of_none {sig : SigName} {args : Args} {s : EmitterState}
    (hl : s.lastArgs = none) : SignalEmitter.recordLast sig args s = s := by
  unfold SignalEmitter.recordLast
  simp only [hl]

/-- Case equation for `recordLast`: immediate mode, overwrite the entry. -/
theorem recordLast_eq_of_some {sig : SigName} {args : Args} {s : EmitterState}
    {m : List (SigName × Args)} (hl : s.lastArgs = some m) :
    SignalEmitter.recordLast sig args s =
      { s with lastArgs := some (jmSet m sig args) } := by
  unfold SignalEmitter.recordLast
  simp only [hl]

/-- `recordLast` never touches the registry. -/
theorem recordLast_listeners (sig : SigName) (args : Args) (s : EmitterState) :
    (SignalEmitter.recordLast sig args s).listeners = s.listeners := by
  cases hl : s.lastArgs with
  | none => rw [recordLast_eq_of_none hl]
  | some m => rw [recordLast_eq_of_some hl]

/-- `recordLast` never touches the fire-once marks. -/
theorem recordLast_onceFlag (sig : SigName) (args : Args) (s : EmitterState) :
    (SignalEmitter.recordLast sig args s).onceFlag = s.onceFlag := by
  cases hl : s.lastArgs with
  | none => rw [recordLast_eq_of_none hl]
  | some m => rw [recordLast_eq_of_some hl]

/-- `recordLast` leaves every signal's listener set untouched. -/
theorem listOf_recordLast (sig sig2 : SigName) (args : Args) (s : EmitterState) :
    listOf (SignalEmitter.recordLast sig args s) sig2 = listOf s sig2 := by
  unfold listOf
  rw [recordLast_listeners]

/-- `recordLast` preserves well-formedness. -/
theorem WF_recordLast (sig : SigName) (args : Args) {s : EmitterState} (h : s.WF) :
    (SignalEmitter.recordLast sig args s).WF := by
  obtain ⟨hk, hv, hf⟩ := h
  cases hl : s.lastArgs with
  | none => rw [recordLast_eq_of_none hl]; exact ⟨hk, hv, hf⟩
  | some m => rw [recordLast_eq_of_some hl]; exact ⟨hk, hv, hf⟩

/-- The state produced by `on` is the marking stage applied after the
adding stage: the replay never mutates the registry. -/
theorem on_state_eq (beh : Beh) (sig : SigName) (opts : SignalListenerOptions) (l : LId)
    (s : EmitterState) :
    (SignalEmitter.on beh sig opts l s).state =
      SignalEmitter.onMark opts l (SignalEmitter.onAdd sig l s) := by
  unfold SignalEmitter.on
  rw [onReplay_state]

/-- `on` never touches the last-arguments map. -/
theorem on_lastArgs (beh : Beh) (sig : SigName) (opts : SignalListenerOptions) (l : LId)
    (s : EmitterState) :
    (SignalEmitter.on beh sig opts l s).state.lastArgs = s.lastArgs := by
  rw [on_state_eq, onMark_lastArgs, onAdd_lastArgs]

/-- After `on`, the signal's set is the old set with the listener appended
when fresh, unchanged when it was already present. -/
theorem listOf_on_self (beh : Beh) (sig : SigName) (opts : SignalListenerOptions) (l : LId)
    (s : EmitterState) :
    listOf ((SignalEmitter.on beh sig opts l s).state) sig =
      (if bmem l (listOf s sig) = true then listOf s sig else listOf s sig ++ [l]) := by
  rw [on_state_eq]
  unfold listOf
  rw [onMark_listeners]
  exact listOf_onAdd_self sig l s

/-- `on` leaves other signals' sets untouched. -/
theorem listOf_on_ne {sig sig2 : SigName} (beh : Beh) (opts : SignalListenerOptions)
    (l : LId) (s : EmitterState) (hne : sig2 ≠ sig) :
    listOf ((SignalEmitter.on beh sig opts l s).state) sig2 = listOf s sig2 := by
  rw [on_state_eq]
  unfold listOf
  rw [onMark_listeners]
  exact listOf_onAdd_ne l s hne

/-- A subscribed listener is registered after `on`. -/
theorem bmem_listOf_on_self (beh : Beh) (sig : SigName) (opts : SignalListenerOptions)
    (l : LId) (s : EmitterState) :
    bmem l (listOf ((SignalEmitter.on beh sig opts l s).state) sig) = true := by
  rw [listOf_on_self]
  cases hb : bmem l (listOf s sig) with
  | true => simp [hb]
  | false => simp [hb, bmem_append, bmem]

/-- A `once` subscription leaves the listener marked fire-once. -/
theorem on_onceFlag_self {opts : SignalListenerOptions} (beh : Beh) (sig : SigName)
    (l : LId) (s : EmitterState) (ho : opts.once = true) :
    bmem l ((SignalEmitter.on beh sig opts l s).state.onceFlag) = true := by
  rw [on_state_eq]
  exact bmem_onceFlag_onMark_self l _ ho

/-- `on` never clears an existing fire-once mark. -/
theorem on_onceFlag_mono {x : LId} (beh : Beh) (sig : SigName)
    (opts : SignalListenerOptions) (l : LId) (s : EmitterState)
    (h : bmem x s.onceFlag = true) :
    bmem x ((SignalEmitter.on beh sig opts l s).state.onceFlag) = true := by
  rw [on_state_eq]
  apply bmem_onceFlag_onMark_mono
  rw [onAdd_onceFlag]
  exact h

/-- Without the `once` option, `on` leaves the fire-once marks unchanged. -/
theorem on_onceFlag_not_once {opts : SignalListenerOptions} (beh : Beh) (sig : SigName)
    (l : LId) (s : EmitterState) (ho : opts.once = false) :
    (SignalEmitter.on beh sig opts l s).state.onceFlag = s.onceFlag := by
  rw [on_state_eq, onMark_eq_of_not_once ho, onAdd_onceFlag]

/-- `on` preserves well-formedness. -/
theorem WF_on (beh : Beh) (sig : SigName) (opts : SignalListenerOptions) (l : LId)
    {s : EmitterState} (h : s.WF) :
    (SignalEmitter.on beh sig opts l s).state.WF := by
  rw [on_state_eq]
  exact WF_onMark opts l (WF_onAdd sig l h)

/-- In immediate mode with a recorded entry, `on` invokes the freshly
subscribed listener synchronously with the recorded arguments: its trace
starts with that invocation. -/
theorem on_events_head {m : List (SigName × Args)} {la : Args} (beh : Beh) (sig : SigName)
    (opts : SignalListenerOptions) (l : LId) (s : EmitterState)
    (hm : s.lastArgs = some m) (hla : jmGet m sig = some la) :
    (SignalEmitter.on beh sig opts l s).events.head? = some (Ev.invoked l la) := by
  unfold SignalEmitter.on
  have hm2 : (SignalEmitter.onMark opts l (SignalEmitter.onAdd sig l s)).lastArgs = some m := by
    rw [onMark_lastArgs, onAdd_lastArgs]; exact hm
  cases hb : beh l la with
  | ok u => cases u; rw [onReplay_eq_of_ok hm2 hla hb]; rfl
  | error e => rw [onReplay_eq_of_error hm2 hla hb]; rfl

/-- In immediate mode with a recorded entry, the replay performed by `on`
invokes the fresh listener exactly once. -/
theorem on_invokedCount {m : List (SigName × Args)} {la : Args} (beh : Beh) (sig : SigName)
    (opts : SignalListenerOptions) (l : LId) (s : EmitterState)
    (hm : s.lastArgs = some m) (hla : jmGet m sig = some la) :
    invokedCount l ((SignalEmitter.on beh sig opts l s).events) = 1 := by
  unfold SignalEmitter.on
  have hm2 : (SignalEmitter.onMark opts l (SignalEmitter.onAdd sig l s)).lastArgs = some m := by
    rw [onMark_lastArgs, onAdd_lastArgs]; exact hm
  cases hb : beh l la with
  | ok u => cases u; rw [onReplay_eq_of_ok hm2 hla hb]; simp [invokedCount]
  | error e => rw [onReplay_eq_of_error hm2 hla hb]; simp [invokedCount]

/-- When the replayed body throws, `on` re-raises the thrown value to its
caller and routes it nowhere else. -/
theorem on_thrown_of_error {m : List (SigName × Args)} {la : Args} {e : Err} (beh : Beh)
    (sig : SigName) (opts : SignalListenerOptions) (l : LId) (s : EmitterState)
    (hm : s.lastArgs = some m) (hla : jmGet m sig = some la)
    (herr : beh l la = Except.error e) :
    (SignalEmitter.on beh sig opts l s).thrown = some e ∧
      (SignalEmitter.on beh sig opts l s).events = [Ev.invoked l la, Ev.threw l e] := by
  unfold SignalEmitter.on
  have hm2 : (SignalEmitter.onMark opts l (SignalEmitter.onAdd sig l s)).lastArgs = some m := by
    rw [onMark_lastArgs, onAdd_lastArgs]; exact hm
  rw [onReplay_eq_of_error hm2 hla herr]
  exact ⟨rfl, rfl⟩

/-- Case equation for dispatch: no registered listener set. -/
theorem emit_eq_of_none {beh : Beh} {sig : SigName} {args : Args} {s : EmitterState}
    (hg : jmGet s.listeners sig = none) :
    SignalEmitter.emit beh sig args s =
      { state := SignalEmitter.recordLast sig args s, handled := false,
        errors := [], events := [] } := by
  unfold SignalEmitter.emit
  have hg2 : jmGet (SignalEmitter.recordLast sig args s).listeners sig = none := by
    rw [recordLast_listeners]; exact hg
  simp only [hg2]

/-- Case equation for dispatch: a listener set is registered and is folded
over in insertion order. -/
theorem emit_eq_of_some {beh : Beh} {sig : SigName} {args : Args} {s : EmitterState}
    {ls : List LId} (hg : jmGet s.listeners sig = some ls) :
    SignalEmitter.emit beh sig args s =
      { state := (ls.foldl (SignalEmitter.emitStep beh sig args)
            (SignalEmitter.recordLast sig args s, [], [])).1,
        handled := true,
        errors := (ls.foldl (SignalEmitter.emitStep beh sig args)
            (SignalEmitter.recordLast sig args s, [], [])).2.1,
        events := (ls.foldl (SignalEmitter.emitStep beh sig args)
            (SignalEmitter.recordLast sig args s, [], [])).2.2 } := by
  unfold SignalEmitter.emit
  have hg2 : jmGet (SignalEmitter.recordLast sig args s).listeners sig = some ls := by
    rw [recordLast_listeners]; exact hg
  simp only [hg2]

/-- One dispatch step, written with the spec-side event vocabulary. -/
theorem emitStep_eq (beh : Beh) (sig : SigName) (args : Args)
    (acc : EmitterState × List Err × List Ev) (l : LId) :
    SignalEmitter.emitStep beh sig args acc l =
      ((if bmem l acc.1.onceFlag = true then SignalEmitter.off sig l acc.1 else acc.1),
        acc.2.1 ++ (match beh l args with
          | Except.ok _ => []
          | Except.error e => [e]),
        acc.2.2 ++ specListenerEvents beh sig args (bmem l acc.1.onceFlag) l) := by
  unfold SignalEmitter.emitStep specListenerEvents
  cases hb : beh l args with
  | ok u => cases hf : bmem l acc.1.onceFlag <;> simp [hb, hf]
  | error e => cases hf : bmem l acc.1.onceFlag <;> simp [hb, hf]

/-- With a well-formed state, every registered set is duplicate-free. -/
theorem bnodup_listOf {s : EmitterState} (h : s.WF) (sig : SigName) :
    bnodup (listOf s sig) = true := by
  cases hg : jmGet s.listeners sig with
  | none => simp [listOf, hg, bnodup]
  | some ls =>
      have h2 := (h.2.1 (sig, ls) (jmGet_mem hg)).1
      simpa [listOf, hg] using h2

/-- The spec-side dispatch trace depends only on the fire-once status of
the listeners in the list. -/
theorem specDispatchEvents_congr {beh : Beh} {sig : SigName} {args : Args}
    {f g : LId → Bool} :
    ∀ {ls : List LId}, (∀ x ∈ ls, f x = g x) →
      specDispatchEvents beh sig args f ls = specDispatchEvents beh sig args g ls := by
  intro ls
  induction ls with
  | nil => intro _; rfl
  | cons l rest ih =>
      intro h
      unfold specDispatchEvents
      rw [h l (List.mem_cons_self l rest), ih (fun x hx => h x (List.mem_cons_of_mem _ hx))]

/-- Unfolding equation for the spec-side failures list. -/
theorem specDispatchFailures_cons (beh : Beh) (args : Args) (l : LId) (rest : List LId) :
    specDispatchFailures beh args (l :: rest) =
      (match beh l args with
        | Except.ok _ => []
        | Except.error e => [e]) ++ specDispatchFailures beh args rest := rfl

/-- Unfolding equation for the spec-side dispatch trace. -/
theorem specDispatchEvents_cons (beh : Beh) (sig : SigName) (args : Args) (f : LId → Bool)
    (l : LId) (rest : List LId) :
    specDispatchEvents beh sig args f (l :: rest) =
      specListenerEvents beh sig args (f l) l ++ specDispatchEvents beh sig args f rest := rfl

/-- The failures accumulated by the dispatch fold are the thrown values of
the listeners, in iteration order. -/
theorem foldl_emitStep_errors (beh : Beh) (sig : SigName) (args : Args) :
    ∀ (ls : List LId) (s : EmitterState) (errs : List Err) (evs : List Ev),
      (ls.foldl (SignalEmitter.emitStep beh sig args) (s, errs, evs)).2.1 =
        errs ++ specDispatchFailures beh args ls := by
  intro ls
  induction ls with
  | nil => intro s errs evs; simp [specDispatchFailures]
  | cons l rest ih =>
      intro s errs evs
      rw [List.foldl_cons, emitStep_eq, ih, specDispatchFailures_cons]
      cases hb : beh l args with
      | ok u => simp [hb]
      | error e => simp [hb]

/-- The trace produced by the dispatch fold over a duplicate-free set is
the spec-side dispatch trace, each listener's fire-once status read off
the marks at the start of the fold. -/
theorem foldl_emitStep_events (beh : Beh) (sig : SigName) (args : Args) :
    ∀ (ls : List LId) (s : EmitterState) (errs : List Err) (evs : List Ev),
      bnodup ls = true →
      (ls.foldl (SignalEmitter.emitStep beh sig args) (s, errs, evs)).2.2 =
        evs ++ specDispatchEvents beh sig args (fun x => bmem x s.onceFlag) ls := by
  intro ls
  induction ls with
  | nil => intro s errs evs _; simp [specDispatchEvents]
  | cons l rest ih =>
      intro s errs evs hnd
      have hm : bmem l rest = false := by
        cases hm2 : bmem l rest with
        | false => rfl
        | true => simp [bnodup, hm2] at hnd
      have hrest : bnodup rest = true := by simpa [bnodup, hm] using hnd
      rw [List.foldl_cons, emitStep_eq, ih _ _ _ hrest]
      have hflags : ∀ x ∈ rest,
          bmem x ((if bmem l (s, errs, evs).1.onceFlag = true
              then SignalEmitter.off sig l (s, errs, evs).1 else (s, errs, evs).1)).onceFlag
            = bmem x s.onceFlag := by
        intro x hx
        cases hf : bmem l s.onceFlag with
        | false => simp [hf]
        | true =>
            have hxl : x ≠ l := ne_of_bmem_eq_false hm hx
            simp [hf, off_onceFlag, bmem_berase_ne (fun hh => hxl hh.symm)]
      rw [specDispatchEvents_congr hflags, specDispatchEvents_cons]
      simp

/-- The dispatch fold preserves well-formedness. -/
theorem foldl_emitStep_WF (beh : Beh) (sig : SigName) (args : Args) :
    ∀ (ls : List LId) (s : EmitterState) (errs : List Err) (evs : List Ev), s.WF →
      ((ls.foldl (SignalEmitter.emitStep beh sig args) (s, errs, evs)).1).WF := by
  intro ls
  induction ls with
  | nil => intro s errs evs h; simpa using h
  | cons l rest ih =>
      intro s errs evs h
      rw [List.foldl_cons, emitStep_eq]
      apply ih
      cases hf : bmem l s.onceFlag with
      | false => simpa [hf] using h
      | true => simpa [hf] using WF_off sig l h

/-- The dispatch fold never adds a listener to the signal's set. -/
theorem foldl_emitStep_not_mem (beh : Beh) (sig : SigName) (args : Args) (L : LId) :
    ∀ (ls : List LId) (s : EmitterState) (errs : List Err) (evs : List Ev), s.WF →
      bmem L (listOf s sig) = false →
      bmem L (listOf ((ls.foldl (SignalEmitter.emitStep beh sig args) (s, errs, evs)).1) sig)
        = false := by
  intro ls
  induction ls with
  | nil => intro s errs evs _ h; simpa using h
  | cons l rest ih =>
      intro s errs evs hwf h
      rw [List.foldl_cons, emitStep_eq]
      cases hf : bmem l s.onceFlag with
      | false =>
          refine ih _ _ _ ?_ ?_
          · simpa [hf] using hwf
          · simpa [hf] using h
      | true =>
          refine ih _ _ _ ?_ ?_
          · simpa [hf] using WF_off sig l hwf
          · have h2 : bmem L (listOf (SignalEmitter.off sig l s) sig) = false := by
              rw [listOf_off_self sig l hwf.1]
              exact bmem_berase_of_bmem_eq_false l h
            simpa [hf] using h2

/-- Folding dispatch over a duplicate-free set containing a marked
listener removes that listener from the signal's set. -/
theorem foldl_emitStep_removes (beh : Beh) (sig : SigName) (args : Args) (L : LId) :
    ∀ (ls : List LId) (s : EmitterState) (errs : List Err) (evs : List Ev), s.WF →
      bnodup ls = true → bmem L ls = true → bmem L s.onceFlag = true →
      bmem L (listOf ((ls.foldl (SignalEmitter.emitStep beh sig args) (s, errs, evs)).1) sig)
        = false := by
  intro ls
  induction ls with
  | nil => intro s errs evs _ _ hmem _; simp [bmem] at hmem
  | cons l rest ih =>
      intro s errs evs hwf hnd hmem hflag
      have hm : bmem l rest = false := by
        cases hm2 : bmem l rest with
        | false => rfl
        | true => simp [bnodup, hm2] at hnd
      have hrest : bnodup rest = true := by simpa [bnodup, hm] using hnd
      rw [List.foldl_cons, emitStep_eq]
      by_cases hl : l = L
      · subst hl
        have hstep : (if bmem l (s, errs, evs).1.onceFlag = true
            then SignalEmitter.off sig l (s, errs, evs).1 else (s, errs, evs).1)
            = SignalEmitter.off sig l s := by simp [hflag]
        rw [hstep]
        refine foldl_emitStep_not_mem beh sig args l rest _ _ _ (WF_off sig l hwf) ?_
        rw [listOf_off_self sig l hwf.1]
        exact bmem_berase_self l (bnodup_listOf hwf sig)
      · have hmem2 : bmem L rest = true := by simpa [bmem, hl] using hmem
        refine ih _ _ _ ?_ hrest hmem2 ?_
        · cases hf : bmem l s.onceFlag with
          | false => simpa [hf] using hwf
          | true => simpa [hf] using WF_off sig l hwf
        · cases hf : bmem l s.onceFlag with
          | false => simpa [hf] using hflag
          | true =>
              have h3 : bmem L (berase s.onceFlag l) = bmem L s.onceFlag :=
                bmem_berase_ne hl s.onceFlag
              simp [hf, off_onceFlag, h3, hflag]

/-- Invocation counts add over concatenated traces. -/
theorem invokedCount_append (L : LId) (xs ys : List Ev) :
    invokedCount L (xs ++ ys) = invokedCount L xs + invokedCount L ys := by
  induction xs with
  | nil => simp [invokedCount]
  | cons ev rest ih =>
      cases ev with
      | removed l s => simp [invokedCount, ih]
      | invoked l a => simp [invokedCount, ih, Nat.add_assoc]
      | threw l e => simp [invokedCount, ih]

/-- Processing one listener invokes it exactly once, and nobody else. -/
theorem invokedCount_specListenerEvents (beh : Beh) (sig : SigName) (args : Args)
    (b : Bool) (l L : LId) :
    invokedCount L (specListenerEvents beh sig args b l) = if l = L then 1 else 0 := by
  cases b <;> cases hb : beh l args <;> simp [specListenerEvents, hb, invokedCount]

/-- A dispatch trace invokes a listener as many times as it occurs in the
iterated set. -/
theorem invokedCount_specDispatchEvents (beh : Beh) (sig : SigName) (args : Args)
    (f : LId → Bool) (L : LId) :
    ∀ ls : List LId, invokedCount L (specDispatchEvents beh sig args f ls) = bcount L ls := by
  intro ls
  induction ls with
  | nil => simp [specDispatchEvents, invokedCount, bcount]
  | cons l rest ih =>
      rw [specDispatchEvents_cons, invokedCount_append, invokedCount_specListenerEvents, ih]
      simp [bcount]

/-- A listener present in a signal's set has a registered entry. -/
theorem jmGet_eq_some_of_bmem_listOf {s : EmitterState} {sig : SigName} {L : LId}
    (h : bmem L (listOf s sig) = true) :
    jmGet s.listeners sig = some (listOf s sig) := by
  cases hg : jmGet s.listeners sig with
  | none =>
      unfold listOf at h
      rw [hg] at h
      simp [bmem] at h
  | some ls => simp [listOf, hg]

/-- Dispatch preserves well-formedness. -/
theorem emit_state_WF (beh : Beh) (sig : SigName) (args : Args) {s : EmitterState}
    (h : s.WF) : (SignalEmitter.emit beh sig args s).state.WF := by
  cases hg : jmGet s.listeners sig with
  | none => rw [emit_eq_of_none hg]; exact WF_recordLast sig args h
  | some ls =>
      rw [emit_eq_of_some hg]
      exact foldl_emitStep_WF beh sig args ls _ [] [] (WF_recordLast sig args h)

/-- With a registered duplicate-free set, the dispatch trace is the
spec-side trace over that set. -/
theorem emit_events_of_some {beh : Beh} {sig : SigName} {args : Args} {s : EmitterState}
    {ls : List LId} (hg : jmGet s.listeners sig = some ls) (hnd : bnodup ls = true) :
    (SignalEmitter.emit beh sig args s).events =
      specDispatchEvents beh sig args (fun x => bmem x s.onceFlag) ls := by
  rw [emit_eq_of_some hg]
  have h2 := foldl_emitStep_events beh sig args ls
    (SignalEmitter.recordLast sig args s) [] [] hnd
  show (ls.foldl (SignalEmitter.emitStep beh sig args)
      (SignalEmitter.recordLast sig args s, [], [])).2.2 = _
  rw [h2]
  have h3 : (fun x => bmem x (SignalEmitter.recordLast sig args s).onceFlag)
      = (fun x => bmem x s.onceFlag) := by
    funext x
    rw [recordLast_onceFlag]
  rw [h3]
  simp

/-- With a registered set, the returned failures list is the spec-side
failures list over that set. -/
theorem emit_errors_of_some {beh : Beh} {sig : SigName} {args : Args} {s : EmitterState}
    {ls : List LId} (hg : jmGet s.listeners sig = some ls) :
    (SignalEmitter.emit beh sig args s).errors = specDispatchFailures beh args ls := by
  rw [emit_eq_of_some hg]
  have h2 := foldl_emitStep_errors beh sig args ls
    (SignalEmitter.recordLast sig args s) [] []
  show (ls.foldl (SignalEmitter.emitStep beh sig args)
      (SignalEmitter.recordLast sig args s, [], [])).2.1 = _
  rw [h2]
  simp

/-- One dispatch invokes a listener as many times as it is registered for
the signal. -/
theorem emit_invokedCount (beh : Beh) (sig : SigName) (args : Args) (L : LId)
    {s : EmitterState} (hwf : s.WF) :
    invokedCount L (SignalEmitter.emit beh sig args s).events = bcount L (listOf s sig) := by
  cases hg : jmGet s.listeners sig with
  | none =>
      rw [emit_eq_of_none hg]
      simp [listOf, hg, invokedCount, bcount]
  | some ls =>
      have hnd : bnodup ls = true := (hwf.2.1 (sig, ls) (jmGet_mem hg)).1
      rw [emit_events_of_some hg hnd, invokedCount_specDispatchEvents]
      simp [listOf, hg]

/-- Dispatch never adds a listener to the signal's set. -/
theorem emit_not_mem (beh : Beh) (sig : SigName) (args : Args) (L : LId)
    {s : EmitterState} (hwf : s.WF) (h : bmem L (listOf s sig) = false) :
    bmem L (listOf (SignalEmitter.emit beh sig args s).state sig) = false := by
  cases hg : jmGet s.listeners sig with
  | none =>
      rw [emit_eq_of_none hg]
      show bmem L (listOf (SignalEmitter.recordLast sig args s) sig) = false
      rw [listOf_recordLast]
      exact h
  | some ls =>
      rw [emit_eq_of_some hg]
      show bmem L (listOf (ls.foldl (SignalEmitter.emitStep beh sig args)
        (SignalEmitter.recordLast sig args s, [], [])).1 sig) = false
      refine foldl_emitStep_not_mem beh sig args L ls _ [] []
        (WF_recordLast sig args hwf) ?_
      rw [listOf_recordLast]
      exact h

/-- Dispatch removes a fire-once-marked listener from the signal's set. -/
theorem emit_removes (beh : Beh) (sig : SigName) (args : Args) (L : LId)
    {s : EmitterState} (hwf : s.WF) (hflag : bmem L s.onceFlag = true)
    (hmem : bmem L (listOf s sig) = true) :
    bmem L (listOf (SignalEmitter.emit beh sig args s).state sig) = false := by
  have hg := jmGet_eq_some_of_bmem_listOf hmem
  rw [emit_eq_of_some hg]
  show bmem L (listOf ((listOf s sig).foldl (SignalEmitter.emitStep beh sig args)
    (SignalEmitter.recordLast sig args s, [], [])).1 sig) = false
  refine foldl_emitStep_removes beh sig args L (listOf s sig) _ [] []
    (WF_recordLast sig args hwf) (bnodup_listOf hwf sig) hmem ?_
  rw [recordLast_onceFlag]
  exact hflag

/-- Scanning skips events that do not concern the listener. -/
theorem removalBeforeInvocation_append {L : LId} {sig : SigName} {xs ys : List Ev}
    (h : ∀ ev ∈ xs, evAbout L ev = false) :
    removalBeforeInvocation L sig (xs ++ ys) = removalBeforeInvocation L sig ys := by
  induction xs with
  | nil => rfl
  | cons ev rest ih =>
      have h0 := h ev (List.mem_cons_self _ _)
      have hrest : ∀ ev ∈ rest, evAbout L ev = false :=
        fun e he => h e (List.mem_cons_of_mem _ he)
      cases ev with
      | removed l s0 =>
          have hne : ¬(l = L) := by simpa [evAbout] using h0
          simp [removalBeforeInvocation, hne, ih hrest]
      | invoked l a =>
          have hne : ¬(l = L) := by simpa [evAbout] using h0
          simp [removalBeforeInvocation, hne, ih hrest]
      | threw l e => simp [removalBeforeInvocation, ih hrest]

/-- Processing another listener produces no event about this one. -/
theorem evAbout_specListenerEvents {L l : LId} (beh : Beh) (sig : SigName) (args : Args)
    (b : Bool) (hne : ¬(l = L)) :
    ∀ ev ∈ specListenerEvents beh sig args b l, evAbout L ev = false := by
  intro ev hev
  unfold specListenerEvents at hev
  cases b with
  | false =>
      cases hb : beh l args with
      | ok u =>
          rw [hb] at hev
          simp at hev
          subst hev
          simp [evAbout, hne]
      | error e =>
          rw [hb] at hev
          simp at hev
          rcases hev with h | h <;> subst h <;> simp [evAbout, hne]
  | true =>
      cases hb : beh l args with
      | ok u =>
          rw [hb] at hev
          simp at hev
          rcases hev with h | h <;> subst h <;> simp [evAbout, hne]
      | error e =>
          rw [hb] at hev
          simp at hev
          rcases hev with h | h | h <;> subst h <;> simp [evAbout, hne]

/-- In a dispatch trace over a duplicate-free set, a marked listener's
removal is recorded before its invocation. -/
theorem rbi_specDispatchEvents {L : LId} (beh : Beh) (sig : SigName) (args : Args)
    (f : LId → Bool) :
    ∀ ls : List LId, bnodup ls = true → bmem L ls = true → f L = true →
      removalBeforeInvocation L sig (specDispatchEvents beh sig args f ls) = true := by
  intro ls
  induction ls with
  | nil => intro _ hmem _; simp [bmem] at hmem
  | cons l rest ih =>
      intro hnd hmem hf
      rw [specDispatchEvents_cons]
      by_cases hl : l = L
      · subst hl
        rw [hf]
        unfold specListenerEvents
        cases hb : beh l args <;> simp [removalBeforeInvocation]
      · have hmem2 : bmem L rest = true := by simpa [bmem, hl] using hmem
        have hnd2 : bnodup rest = true := by
          cases hm2 : bmem l rest with
          | true => simp [bnodup, hm2] at hnd
          | false => simpa [bnodup, hm2] using hnd
        rw [removalBeforeInvocation_append (evAbout_specListenerEvents beh sig args (f l) hl)]
        exact ih hnd2 hmem2 hf

/-- In the trace of one dispatch, a marked and registered listener's
removal precedes its invocation. -/
theorem emit_rbi (beh : Beh) (sig : SigName) (args : Args) (L : LId) {s : EmitterState}
    (hwf : s.WF) (hflag : bmem L s.onceFlag = true) (hmem : bmem L (listOf s sig) = true) :
    removalBeforeInvocation L sig (SignalEmitter.emit beh sig args s).events = true := by
  have hg := jmGet_eq_some_of_bmem_listOf hmem
  rw [emit_events_of_some hg (bnodup_listOf hwf sig)]
  exact rbi_specDispatchEvents beh sig args _ (listOf s sig) (bnodup_listOf hwf sig) hmem hflag

/-- Unfolding equation for a sequence of dispatches. -/
theorem emitSeq_cons (beh : Beh) (sig : SigName) (args : Args) (rest : List Args)
    (s : EmitterState) :
    emitSeq beh sig (args :: rest) s =
      ((emitSeq beh sig rest (SignalEmitter.emit beh sig args s).state).1,
        (SignalEmitter.emit beh sig args s).events ++
          (emitSeq beh sig rest (SignalEmitter.emit beh sig args s).state).2) := rfl

/-- A listener absent from the signal's set is never invoked by any
sequence of dispatches of that signal. -/
theorem emitSeq_invokedCount_zero (beh : Beh) (sig : SigName) (L : LId) :
    ∀ (argsL : List Args) (s : EmitterState), s.WF → bmem L (listOf s sig) = false →
      invokedCount L (emitSeq beh sig argsL s).2 = 0 := by
  intro argsL
  induction argsL with
  | nil => intro s _ _; simp [emitSeq, invokedCount]
  | cons args rest ih =>
      intro s hwf h
      rw [emitSeq_cons]
      show invokedCount L ((SignalEmitter.emit beh sig args s).events ++
        (emitSeq beh sig rest (SignalEmitter.emit beh sig args s).state).2) = 0
      rw [invokedCount_append, emit_invokedCount beh sig args L hwf,
        bcount_eq_zero_of_bmem_eq_false h,
        ih _ (emit_state_WF beh sig args hwf) (emit_not_mem beh sig args L hwf h)]

/-- A fire-once-marked listener is invoked at most once across any
sequence of dispatches of its signal. -/
theorem emitSeq_invokedCount_le_one (beh : Beh) (sig : SigName) (L : LId)
    (argsL : List Args) {s : EmitterState} (hwf : s.WF)
    (hinv : bmem L (listOf s sig) = true → bmem L s.onceFlag = true) :
    invokedCount L (emitSeq beh sig argsL s).2 ≤ 1 := by
  cases argsL with
  | nil => simp [emitSeq, invokedCount]
  | cons args rest =>
      cases hmem : bmem L (listOf s sig) with
      | false =>
          rw [emitSeq_invokedCount_zero beh sig L (args :: rest) s hwf hmem]
          exact Nat.zero_le 1
      | true =>
          have hflag := hinv hmem
          rw [emitSeq_cons]
          show invokedCount L ((SignalEmitter.emit beh sig args s).events ++
            (emitSeq beh sig rest (SignalEmitter.emit beh sig args s).state).2) ≤ 1
          rw [invokedCount_append, emit_invokedCount beh sig args L hwf,
            bcount_eq_one (bnodup_listOf hwf sig) hmem,
            emitSeq_invokedCount_zero beh sig L rest _ (emit_state_WF beh sig args hwf)
              (emit_removes beh sig args L hwf hflag hmem)]

/-- The dispatch fold never touches the last-arguments map. -/
theorem foldl_emitStep_lastArgs (beh : Beh) (sig : SigName) (args : Args) :
    ∀ (ls : List LId) (s : EmitterState) (errs : List Err) (evs : List Ev),
      ((ls.foldl (SignalEmitter.emitStep beh sig args) (s, errs, evs)).1).lastArgs
        = s.lastArgs := by
  intro ls
  induction ls with
  | nil => intro s errs evs; rfl
  | cons l rest ih =>
      intro s errs evs
      rw [List.foldl_cons, emitStep_eq, ih]
      cases hf : bmem l s.onceFlag with
      | false => simp [hf]
      | true => simp [hf, off_lastArgs]

/-- In immediate mode, dispatch overwrites the signal's recorded
last-arguments entry with the emitted tuple. -/
theorem emit_lastArgs (beh : Beh) (sig : SigName) (args : Args) {s : EmitterState}
    {m : List (SigName × Args)} (hm : s.lastArgs = some m) :
    (SignalEmitter.emit beh sig args s).state.lastArgs = some (jmSet m sig args) := by
  cases hg : jmGet s.listeners sig with
  | none =>
      rw [emit_eq_of_none hg]
      show (SignalEmitter.recordLast sig args s).lastArgs = _
      rw [recordLast_eq_of_some hm]
  | some ls =>
      rw [emit_eq_of_some hg]
      show ((ls.foldl (SignalEmitter.emitStep beh sig args)
        (SignalEmitter.recordLast sig args s, [], [])).1).lastArgs = _
      rw [foldl_emitStep_lastArgs, recordLast_eq_of_some hm]

/-- Unsubscribing a listener that is not registered for the signal leaves
the listener registry unchanged. -/
theorem off_listeners_of_not_mem {s : EmitterState} {sig : SigName} {l : LId}
    (hwf : s.WF) (h : bmem l (listOf s sig) = false) :
    (SignalEmitter.off sig l s).listeners = s.listeners := by
  unfold SignalEmitter.off
  cases hg : jmGet s.listeners sig with
  | none =>
      have hg2 : jmGet (SignalEmitter.offDeleteFlag l s).listeners sig = none := hg
      rw [offRemove_eq_of_none hg2]
      rfl
  | some ls =>
      have hls : bmem l ls = false := by
        unfold listOf at h
        rw [hg] at h
        simpa using h
      have hbe : berase ls l = ls := berase_of_bmem_eq_false hls
      have hne : ¬(berase ls l = []) := by
        rw [hbe]
        exact (hwf.2.1 (sig, ls) (jmGet_mem hg)).2
      have hg2 : jmGet (SignalEmitter.offDeleteFlag l s).listeners sig = some ls := hg
      rw [offRemove_eq_of_nonempty hg2 hne]
      show jmSet s.listeners sig (berase ls l) = s.listeners
      rw [hbe]
      exact jmSet_same hg

/-- Well-formedness subsumes the no-empty-set invariant. -/
theorem noEmpty_of_WF {s : EmitterState} (h : s.WF) : noEmpty s :=
  fun p hp => (h.2.1 p hp).2

/-- `[CLEAR_SIGNAL]` preserves well-formedness. -/
theorem WF_clearSignal (sig : SigName) {s : EmitterState} (h : s.WF) :
    (SignalEmitter.clearSignal sig s).WF := by
  unfold SignalEmitter.clearSignal
  cases hg : jmGet s.listeners sig with
  | none => exact h
  | some ls =>
      have hfold : ∀ (xs : List LId) (t : EmitterState), t.WF →
          (xs.foldl (fun t x => SignalEmitter.off sig x t) t).WF := by
        intro xs
        induction xs with
        | nil => intro t ht; exact ht
        | cons x rest ih =>
            intro t ht
            rw [List.foldl_cons]
            exact ih _ (WF_off sig x ht)
      exact hfold ls s h

/-- `[CLEAR_ALL_SIGNALS]` changes nothing: `Object.keys` of the `Map`
yields no keys to clear. -/
theorem clearAllSignals_eq (s : EmitterState) : SignalEmitter.clearAllSignals s = s := rfl

/-- C4: dispatch returns `(false, [])` when no listener set is registered
for the signal; otherwise it iterates the set in insertion order —
removing a fire-once listener before invoking it, invoking every listener
with the arguments, catching each thrown value and appending it to the
failures list while continuing with the remaining listeners — and returns
`(true, failures)` whenever a listener set existed, however many of its
listeners failed.  The trace and failures are characterised by the
spec-side `specDispatchEvents`/`specDispatchFailures`; dispatch is a total
function of the embedding and never raises to its caller. -/
theorem dispatch_contract (beh : Beh) (sig : SigName) (args : Args) (s : EmitterState)
    (ls : List LId) (hnd : bnodup ls = true) :
    (jmGet s.listeners sig = none →
      (SignalEmitter.emit beh sig args s).handled = false ∧
      (SignalEmitter.emit beh sig args s).errors = [] ∧
      (SignalEmitter.emit beh sig args s).events = []) ∧
    (jmGet s.listeners sig = some ls →
      (SignalEmitter.emit beh sig args s).handled = true ∧
      (SignalEmitter.emit beh sig args s).errors = specDispatchFailures beh args ls ∧
      (SignalEmitter.emit beh sig args s).events =
        specDispatchEvents beh sig args (fun x => bmem x s.onceFlag) ls) := by
  constructor
  · intro hg
    rw [emit_eq_of_none hg]
    exact ⟨rfl, rfl, rfl⟩
  · intro hg
    refine ⟨?_, emit_errors_of_some hg, emit_events_of_some hg hnd⟩
    rw [emit_eq_of_some hg]

/-- Witness for C4 at a concrete input: listeners `0` (fire-once, throws
`7`) and `1` registered for `"ping"`. -/
theorem dispatch_contract_witness :
    bnodup [(0 : LId), 1] = true ∧
    ((jmGet wfOnceState.listeners pingSig = none →
      (SignalEmitter.emit behThrow0 pingSig [2] wfOnceState).handled = false ∧
      (SignalEmitter.emit behThrow0 pingSig [2] wfOnceState).errors = [] ∧
      (SignalEmitter.emit behThrow0 pingSig [2] wfOnceState).events = []) ∧
    (jmGet wfOnceState.listeners pingSig = some [0, 1] →
      (SignalEmitter.emit behThrow0 pingSig [2] wfOnceState).handled = true ∧
      (SignalEmitter.emit behThrow0 pingSig [2] wfOnceState).errors =
        specDispatchFailures behThrow0 [2] [0, 1] ∧
      (SignalEmitter.emit behThrow0 pingSig [2] wfOnceState).events =
        specDispatchEvents behThrow0 pingSig [2] (fun x => bmem x wfOnceState.onceFlag)
          [0, 1])) :=
  ⟨by decide, dispatch_contract behThrow0 pingSig [2] wfOnceState [0, 1] (by decide)⟩

/-- C5: in immediate mode every dispatch records the emitted tuple as the
signal's last-emitted arguments, overwriting any previous entry, whether
or not any listener is registered; and a subscription to a signal that
already has a recorded entry invokes the freshly subscribed listener
synchronously with those arguments during the `on` call itself — its
replay trace starts with that invocation — with no new dispatch involved. -/
theorem immediate_mode_records_and_replays (beh : Beh) (sig : SigName)
    (opts : SignalListenerOptions) (l : LId) (args la : Args) (s : EmitterState)
    (m : List (SigName × Args)) (hm : s.lastArgs = some m) :
    ((SignalEmitter.emit beh sig args s).state.lastArgs = some (jmSet m sig args) ∧
      jmGet (jmSet m sig args) sig = some args) ∧
    (jmGet m sig = some la →
      (SignalEmitter.on beh sig opts l s).events.head? = some (Ev.invoked l la)) := by
  refine ⟨⟨emit_lastArgs beh sig args hm, jmGet_jmSet_self m sig args⟩, ?_⟩
  intro hla
  exact on_events_head beh sig opts l s hm hla

/-- Witness for C5 at a concrete input: immediate mode with `[5]` recorded
for `"ping"`; emitting `[7]` overwrites the record, and subscribing
listener `1` replays `[5]` synchronously. -/
theorem immediate_mode_records_and_replays_witness :
    immState.lastArgs = some [(pingSig, [5])] ∧
    (((SignalEmitter.emit behOk pingSig [7] immState).state.lastArgs
        = some (jmSet [(pingSig, [5])] pingSig [7]) ∧
      jmGet (jmSet [(pingSig, [5])] pingSig [7]) pingSig = some [7]) ∧
    (jmGet [(pingSig, [5])] pingSig = some [5] →
      (SignalEmitter.on behOk pingSig {} 1 immState).events.head?
        = some (Ev.invoked 1 [5]))) :=
  ⟨by decide,
    immediate_mode_records_and_replays behOk pingSig {} 1 [7] [5] immState
      [(pingSig, [5])] (by decide)⟩

/-- C6: a listener that is fire-once-marked whenever it is registered for
the signal — as a listener subscribed with the `once` option is — is
invoked at most once by dispatch across any sequence of emissions of that
signal; and on an emission that finds it marked and registered, dispatch
removes it from the listener set before invoking it (its removal precedes
its invocation in the trace), leaving it absent from the registry
immediately after. -/
theorem once_listener_at_most_once (beh : Beh) (sig : SigName) (L : LId)
    (argsL : List Args) (args : Args) (s : EmitterState) (hwf : s.WF)
    (hinv : bmem L (listOf s sig) = true → bmem L s.onceFlag = true) :
    invokedCount L (emitSeq beh sig argsL s).2 ≤ 1 ∧
    (bmem L s.onceFlag = true → bmem L (listOf s sig) = true →
      removalBeforeInvocation L sig (SignalEmitter.emit beh sig args s).events = true ∧
      bmem L (listOf (SignalEmitter.emit beh sig args s).state sig) = false) := by
  refine ⟨emitSeq_invokedCount_le_one beh sig L argsL hwf hinv, ?_⟩
  intro hflag hmem
  exact ⟨emit_rbi beh sig args L hwf hflag hmem,
    emit_removes beh sig args L hwf hflag hmem⟩

/-- Witness for C6 at a concrete input: listener `0` fire-once on
`"ping"`, three emissions. -/
theorem once_listener_at_most_once_witness :
    wfOnceState.WF ∧
    (bmem 0 (listOf wfOnceState pingSig) = true → bmem 0 wfOnceState.onceFlag = true) ∧
    (invokedCount 0 (emitSeq behOk pingSig [[1], [2], [3]] wfOnceState).2 ≤ 1 ∧
    (bmem 0 wfOnceState.onceFlag = true → bmem 0 (listOf wfOnceState pingSig) = true →
      removalBeforeInvocation 0 pingSig
        (SignalEmitter.emit behOk pingSig [4] wfOnceState).events = true ∧
      bmem 0 (listOf (SignalEmitter.emit behOk pingSig [4] wfOnceState).state pingSig)
        = false)) :=
  ⟨by decide, by decide,
    once_listener_at_most_once behOk pingSig 0 [[1], [2], [3]] [4] wfOnceState
      (by decide) (by decide)⟩

/-- C7: `off` removes the listener from the signal's set by identity and
clears its fire-once mark; when the listener was not registered for the
signal the listener registry is unchanged (and `off`, a total function of
the embedding, raises nothing).  Moreover the invariant that no signal
name maps to an empty listener set is preserved by every state-changing
emitter operation: `off`, `on`, dispatch, `[CLEAR_SIGNAL]` and
`[CLEAR_ALL_SIGNALS]`. -/
theorem off_spec_and_no_empty_sets (beh : Beh) (sig sig2 : SigName)
    (opts : SignalListenerOptions) (l l2 : LId) (args : Args) (s : EmitterState)
    (hwf : s.WF) :
    bmem l (listOf (SignalEmitter.off sig l s) sig) = false ∧
    bmem l ((SignalEmitter.off sig l s).onceFlag) = false ∧
    (bmem l (listOf s sig) = false →
      (SignalEmitter.off sig l s).listeners = s.listeners) ∧
    noEmpty (SignalEmitter.off sig l s) ∧
    noEmpty ((SignalEmitter.on beh sig2 opts l2 s).state) ∧
    noEmpty ((SignalEmitter.emit beh sig2 args s).state) ∧
    noEmpty (SignalEmitter.clearSignal sig2 s) ∧
    noEmpty (SignalEmitter.clearAllSignals s) := by
  refine ⟨?_, ?_, ?_, ?_, ?_, ?_, ?_, ?_⟩
  · rw [listOf_off_self sig l hwf.1]
    exact bmem_berase_self l (bnodup_listOf hwf sig)
  · rw [off_onceFlag]
    exact bmem_berase_self l hwf.2.2
  · intro h
    exact off_listeners_of_not_mem hwf h
  · exact noEmpty_of_WF (WF_off sig l hwf)
  · exact noEmpty_of_WF (WF_on beh sig2 opts l2 hwf)
  · exact noEmpty_of_WF (emit_state_WF beh sig2 args hwf)
  · exact noEmpty_of_WF (WF_clearSignal sig2 hwf)
  · rw [clearAllSignals_eq]
    exact noEmpty_of_WF hwf

/-- Witness for C7 at a concrete input. -/
theorem off_spec_and_no_empty_sets_witness :
    wfOnceState.WF ∧
    (bmem 0 (listOf (SignalEmitter.off pingSig 0 wfOnceState) pingSig) = false ∧
    bmem 0 ((SignalEmitter.off pingSig 0 wfOnceState).onceFlag) = false ∧
    (bmem 0 (listOf wfOnceState pingSig) = false →
      (SignalEmitter.off pingSig 0 wfOnceState).listeners = wfOnceState.listeners) ∧
    noEmpty (SignalEmitter.off pingSig 0 wfOnceState) ∧
    noEmpty ((SignalEmitter.on behOk pongSig {} 2 wfOnceState).state) ∧
    noEmpty ((SignalEmitter.emit behOk pongSig [1] wfOnceState).state) ∧
    noEmpty (SignalEmitter.clearSignal pongSig wfOnceState) ∧
    noEmpty (SignalEmitter.clearAllSignals wfOnceState)) :=
  ⟨by decide,
    off_spec_and_no_empty_sets behOk pingSig pongSig {} 0 2 [1] wfOnceState (by decide)⟩

/-- C8: the fire-once mark lives on the listener function object, not on
the individual subscription: after subscribing listener L to S1 with
`once` and then to S2 without it, L carries the mark; a dispatch of S2
therefore removes L from S2's set — the removal precedes L's invocation
in the trace and L is absent from S2's set afterwards, so L fires at most
once on S2 as well.  And `off S3 L` clears L's fire-once mark for any
signal S3, whether or not L was ever registered for S3. -/
theorem once_flag_shared_across_signals (beh : Beh) (S1 S2 S3 : SigName) (L : LId)
    (args : Args) (s : EmitterState) (hwf : s.WF) :
    bmem L (((SignalEmitter.on beh S2 { once := false } L
        ((SignalEmitter.on beh S1 { once := true } L s).state)).state).onceFlag) = true ∧
    removalBeforeInvocation L S2 (SignalEmitter.emit beh S2 args
        ((SignalEmitter.on beh S2 { once := false } L
          ((SignalEmitter.on beh S1 { once := true } L s).state)).state)).events = true ∧
    bmem L (listOf (SignalEmitter.emit beh S2 args
        ((SignalEmitter.on beh S2 { once := false } L
          ((SignalEmitter.on beh S1 { once := true } L s).state)).state)).state S2)
      = false ∧
    bmem L ((SignalEmitter.off S3 L s).onceFlag) = false := by
  have hwfA := WF_on beh S1 { once := true } L hwf
  have hwfB := WF_on beh S2 { once := false } L hwfA
  have hflagA : bmem L (((SignalEmitter.on beh S1 { once := true } L s).state).onceFlag)
      = true := @on_onceFlag_self { once := true } beh S1 L s rfl
  have hflagB := on_onceFlag_mono beh S2 { once := false } L
    ((SignalEmitter.on beh S1 { once := true } L s).state) hflagA
  have hmemB := bmem_listOf_on_self beh S2 { once := false } L
    ((SignalEmitter.on beh S1 { once := true } L s).state)
  refine ⟨hflagB, emit_rbi beh S2 args L hwfB hflagB hmemB,
    emit_removes beh S2 args L hwfB hflagB hmemB, ?_⟩
  rw [off_onceFlag]
  exact bmem_berase_self L hwf.2.2

/-- Witness for C8 at a concrete input: the empty emitter, listener `0`,
signals `"ping"`, `"pong"` and `"x"`. -/
theorem once_flag_shared_across_signals_witness :
    (SignalEmitter.mk0 false).WF ∧
    (bmem 0 (((SignalEmitter.on behOk pongSig { once := false } 0
        ((SignalEmitter.on behOk pingSig { once := true } 0
          (SignalEmitter.mk0 false)).state)).state).onceFlag) = true ∧
    removalBeforeInvocation 0 pongSig (SignalEmitter.emit behOk pongSig [1]
        ((SignalEmitter.on behOk pongSig { once := false } 0
          ((SignalEmitter.on behOk pingSig { once := true } 0
            (SignalEmitter.mk0 false)).state)).state)).events = true ∧
    bmem 0 (listOf (SignalEmitter.emit behOk pongSig [1]
        ((SignalEmitter.on behOk pongSig { once := false } 0
          ((SignalEmitter.on behOk pingSig { once := true } 0
            (SignalEmitter.mk0 false)).state)).state)).state pongSig) = false ∧
    bmem 0 ((SignalEmitter.off xSig 0 (SignalEmitter.mk0 false)).onceFlag) = false) :=
  ⟨by decide,
    once_flag_shared_across_signals behOk pingSig pongSig xSig 0 [1]
      (SignalEmitter.mk0 false) (by decide)⟩

/-- C9: the immediate-mode replay does not consume the fire-once mark: a
listener freshly subscribed with `once` to a signal that already has
recorded last-arguments is invoked once synchronously during the `on`
call, stays registered and marked afterwards, and is invoked once more by
the next dispatch of that signal — two invocations in total. -/
theorem immediate_replay_not_consuming_once (beh : Beh) (sig : SigName) (L : LId)
    (args la : Args) (s : EmitterState) (m : List (SigName × Args)) (hwf : s.WF)
    (hm : s.lastArgs = some m) (hla : jmGet m sig = some la) :
    invokedCount L ((SignalEmitter.on beh sig { once := true } L s).events) = 1 ∧
    bmem L (listOf ((SignalEmitter.on beh sig { once := true } L s).state) sig) = true ∧
    bmem L (((SignalEmitter.on beh sig { once := true } L s).state).onceFlag) = true ∧
    invokedCount L (SignalEmitter.emit beh sig args
      ((SignalEmitter.on beh sig { once := true } L s).state)).events = 1 ∧
    invokedCount L ((SignalEmitter.on beh sig { once := true } L s).events ++
      (SignalEmitter.emit beh sig args
        ((SignalEmitter.on beh sig { once := true } L s).state)).events) = 2 := by
  have h1 := on_invokedCount beh sig { once := true } L s hm hla
  have hwfOn := WF_on beh sig { once := true } L hwf
  have hmem := bmem_listOf_on_self beh sig { once := true } L s
  have h4 : invokedCount L (SignalEmitter.emit beh sig args
      ((SignalEmitter.on beh sig { once := true } L s).state)).events = 1 := by
    rw [emit_invokedCount beh sig args L hwfOn]
    exact bcount_eq_one (bnodup_listOf hwfOn sig) hmem
  refine ⟨h1, hmem, @on_onceFlag_self { once := true } beh sig L s rfl, h4, ?_⟩
  rw [invokedCount_append, h1, h4]

/-- Witness for C9 at a concrete input: immediate mode with `[5]` recorded
for `"ping"`, listener `1` subscribed with `once`. -/
theorem immediate_replay_not_consuming_once_witness :
    immState.WF ∧ immState.lastArgs = some [(pingSig, [5])] ∧
    jmGet [(pingSig, [5])] pingSig = some [5] ∧
    (invokedCount 1 ((SignalEmitter.on behOk pingSig { once := true } 1 immState).events)
        = 1 ∧
    bmem 1 (listOf ((SignalEmitter.on behOk pingSig { once := true } 1 immState).state)
        pingSig) = true ∧
    bmem 1 (((SignalEmitter.on behOk pingSig { once := true } 1 immState).state).onceFlag)
        = true ∧
    invokedCount 1 (SignalEmitter.emit behOk pingSig [7]
      ((SignalEmitter.on behOk pingSig { once := true } 1 immState).state)).events = 1 ∧
    invokedCount 1 ((SignalEmitter.on behOk pingSig { once := true } 1 immState).events ++
      (SignalEmitter.emit behOk pingSig [7]
        ((SignalEmitter.on behOk pingSig { once := true } 1 immState).state)).events)
      = 2) :=
  ⟨by decide, by decide, by decide,
    immediate_replay_not_consuming_once behOk pingSig 1 [7] [5] immState
      [(pingSig, [5])] (by decide) (by decide) (by decide)⟩

/-- C10: the immediate-mode replay inside `on` is not exception-guarded:
when the freshly subscribed listener throws during its synchronous replay
with the recorded last-arguments, the thrown value escapes the `on` call
itself, and the controller-owned subscription path produces no diagnostic
event — in particular nothing ever reaches the controller's `onError`,
unlike failures during dispatch, which are caught and collected. -/
theorem immediate_replay_exception_escapes (beh : Beh) (sig : SigName)
    (opts : SignalListenerOptions) (L : LId) (s : EmitterState)
    (m : List (SigName × Args)) (la : Args) (e : Err) (hm : s.lastArgs = some m)
    (hla : jmGet m sig = some la) (herr : beh L la = Except.error e) :
    (SignalEmitter.on beh sig opts L s).thrown = some e ∧
    (SignalEmitter.on beh sig opts L s).events = [Ev.invoked L la, Ev.threw L e] ∧
    (SignalController.subscribe beh sig opts L
      { emitter := s, destroyed := false }).thrown = some e ∧
    (SignalController.subscribe beh sig opts L
      { emitter := s, destroyed := false }).cevents = [] := by
  have h1 := on_thrown_of_error beh sig opts L s hm hla herr
  refine ⟨h1.1, h1.2, ?_, ?_⟩
  · show (SignalEmitter.on beh sig opts L s).thrown = some e
    exact h1.1
  · rfl

/-- Witness for C10 at a concrete input: immediate mode with `[5]`
recorded for `"ping"`; listener `0` throws `7` during the replay. -/
theorem immediate_replay_exception_escapes_witness :
    immState.lastArgs = some [(pingSig, [5])] ∧
    jmGet [(pingSig, [5])] pingSig = some [5] ∧
    behThrow0 0 [5] = Except.error 7 ∧
    ((SignalEmitter.on behThrow0 pingSig {} 0 immState).thrown = some 7 ∧
    (SignalEmitter.on behThrow0 pingSig {} 0 immState).events
        = [Ev.invoked 0 [5], Ev.threw 0 7] ∧
    (SignalController.subscribe behThrow0 pingSig {} 0
      { emitter := immState, destroyed := false }).thrown = some 7 ∧
    (SignalController.subscribe behThrow0 pingSig {} 0
      { emitter := immState, destroyed := false }).cevents = []) :=
  ⟨by decide, by decide, rfl,
    immediate_replay_exception_escapes behThrow0 pingSig {} 0 immState
      [(pingSig, [5])] [5] 7 (by decide) (by decide) rfl⟩
